import Mathlib

/-!
Verification development for the UE5 Fast Startup Accelerator analyzer
(`rust-analyzer` crate).  The Rust sources are shallowly embedded: byte
buffers become `List Nat` (each entry a byte value), 64-bit machine
arithmetic becomes `Nat` arithmetic reduced modulo `2^64`, filesystem and
I/O effects become explicit oracle parameters, and every fallible
operation returns `Option`/`Except`.
-/

namespace UEFast

/-! ## 64-bit machine arithmetic helpers -/

/-- `2^64`, the modulus of Rust `u64` arithmetic. -/
def M64 : Nat := 18446744073709551616

/-- `2^32`. -/
def M32 : Nat := 4294967296

/-- Rust `u64::wrapping_add`. -/
def add64 (a b : Nat) : Nat := (a + b) % M64

/-- Rust `u64::wrapping_sub`. -/
def sub64 (a b : Nat) : Nat := (a + (M64 - b % M64)) % M64

/-- Rust `u64::wrapping_mul`. -/
def mul64 (a b : Nat) : Nat := (a * b) % M64

/-- Rust `u64::rotate_left` for operands below `2^64`. -/
def rotl64 (a r : Nat) : Nat := ((a <<< r) % M64) ||| (a >>> (64 - r))

/-- Little-endian byte of `n` at position `i`. -/
def byteAt (n i : Nat) : Nat := n / (256 ^ i) % 256

/-- The eight little-endian bytes of a `u64` (`u64::to_le_bytes`). -/
def u64le (n : Nat) : List Nat :=
  [byteAt n 0, byteAt n 1, byteAt n 2, byteAt n 3,
   byteAt n 4, byteAt n 5, byteAt n 6, byteAt n 7]

/-- Read a little-endian `u64` from `data` at byte offset `i`
(`u64::from_le_bytes` of `data[i..i+8]`); absent positions read as 0. -/
def read64 (data : List Nat) (i : Nat) : Nat :=
  data.getD i 0 + 256 * (data.getD (i+1) 0 + 256 * (data.getD (i+2) 0 +
    256 * (data.getD (i+3) 0 + 256 * (data.getD (i+4) 0 + 256 * (data.getD (i+5) 0 +
    256 * (data.getD (i+6) 0 + 256 * data.getD (i+7) 0))))))

/-- Read a little-endian `u32` from `data` at byte offset `i`. -/
def read32 (data : List Nat) (i : Nat) : Nat :=
  data.getD i 0 + 256 * (data.getD (i+1) 0 + 256 * (data.getD (i+2) 0 +
    256 * data.getD (i+3) 0))

/-- Byte-swap of a `u64` (`u64::swap_bytes`). -/
def bswap64 (x : Nat) : Nat :=
  byteAt x 0 * 72057594037927936 + byteAt x 1 * 281474976710656 +
  byteAt x 2 * 1099511627776 + byteAt x 3 * 4294967296 +
  byteAt x 4 * 16777216 + byteAt x 5 * 65536 + byteAt x 6 * 256 + byteAt x 7

/-! ## `asm_bindings.rs`: `HashState`

The NASM kernels (`hash_block_simd`, `hash_finalize`) are out of scope of
the sources; per the specification's kernel contract (§4.2) they must
produce the same values as the pure Rust fallback, so the fallback
(`update_rust_fallback`, `finalize_rust_fallback`) is embedded as the
semantics of `update`/`finalize`. -/

/-- xxHash64 prime 1 (`PRIME64_1` in `asm_bindings.rs`). -/
def P64_1 : Nat := 0x9E3779B185EBCA87

/-- xxHash64 prime 2 (`PRIME64_2` in `asm_bindings.rs`). -/
def P64_2 : Nat := 0xC2B2AE3D27D4EB4F

/-- xxHash64 prime 3 (`PRIME64_3` in `asm_bindings.rs`). -/
def P64_3 : Nat := 0x165667B19E3779F9

/-- xxHash64 prime 4 (`PRIME64_4` in `asm_bindings.rs`). -/
def P64_4 : Nat := 0x85EBCA77C2B2AE63

/-- The four 64-bit accumulators and running length of
`asm_bindings::HashState`. -/
structure HashSt where
  a0 : Nat
  a1 : Nat
  a2 : Nat
  a3 : Nat
  totalLen : Nat
deriving Repr, DecidableEq

/-- `HashState::new(seed)`. -/
def hsNew (seed : Nat) : HashSt :=
  { a0 := add64 (add64 seed P64_1) P64_2
    a1 := add64 seed P64_2
    a2 := seed % M64
    a3 := sub64 seed P64_1
    totalLen := 0 }

/-- One lane step of `update_rust_fallback`:
`acc = rotl31(acc + input*P2) * P1` in wrapping arithmetic. -/
def laneStep (acc input : Nat) : Nat :=
  mul64 (rotl64 (add64 acc (mul64 input P64_2)) 31) P64_1

/-- Process the leading 32-byte block of `data` (one iteration of the
outer loop of `update_rust_fallback`; the four lanes read the four
little-endian `u64`s of the block). -/
def processBlock (s : HashSt) (data : List Nat) : HashSt :=
  { s with
    a0 := laneStep s.a0 (read64 data 0)
    a1 := laneStep s.a1 (read64 data 8)
    a2 := laneStep s.a2 (read64 data 16)
    a3 := laneStep s.a3 (read64 data 24) }

/-- Process `count` consecutive 32-byte blocks from the front of `data`
(the outer loop of `update_rust_fallback`; block `i` starts at offset
`32*i`, equivalently at the front after dropping `32*i` bytes). -/
def processBlocks : Nat → HashSt → List Nat → HashSt
  | 0, s, _ => s
  | count+1, s, data => processBlocks count (processBlock s data) (data.drop 32)

/-- `HashState::update`: add the chunk length to `total_len` and process
the `len/32` complete 32-byte blocks (trailing bytes are dropped). -/
def hsUpdate (s : HashSt) (data : List Nat) : HashSt :=
  let blockCount := data.length / 32
  let s := { s with totalLen := s.totalLen + data.length }
  if blockCount > 0 then processBlocks blockCount s data else s

/-- `HashState::finalize` (`finalize_rust_fallback`): rotate-and-sum the
four accumulators, add the total length, and avalanche with primes 3/4. -/
def hsFinalize (s : HashSt) : Nat :=
  let h := add64 (add64 (add64 (rotl64 s.a0 1) (rotl64 s.a1 7))
    (rotl64 s.a2 12)) (rotl64 s.a3 18)
  let h := add64 h (s.totalLen % M64)
  let h := h ^^^ (h >>> 33)
  let h := mul64 h P64_3
  let h := h ^^^ (h >>> 29)
  let h := mul64 h P64_4
  h ^^^ (h >>> 32)

/-- `slice::chunks(32*1024)` specialised to byte lists: split into
consecutive chunks of 32768 bytes, the last chunk possibly shorter.  The
fuel argument only drives structural recursion; each step consumes at
least one element, so `chunksFuel l.length l` is the full chunk list. -/
def chunksFuel : Nat → List Nat → List (List Nat)
  | 0, _ => []
  | _+1, [] => []
  | fuel+1, a :: l => ((a :: l).take 32768) :: chunksFuel fuel ((a :: l).drop 32768)

/-- `data.chunks(32*1024)` from `hash_bytes_asm`. -/
def chunks32k (data : List Nat) : List (List Nat) := chunksFuel data.length data

/-- `hash_bytes_asm` (`hash.rs`): feed the data through `HashState` in
32 KiB chunks and finalize. -/
def hashAsm (data : List Nat) : Nat :=
  hsFinalize ((chunks32k data).foldl hsUpdate (hsNew 0))

/-! ## xxh3-64

`hash.rs` delegates its scalar path to `xxhash_rust::xxh3::xxh3_64`, a
dependency crate whose sources are not part of this repository. -/

/-- xxHash32 prime 1. -/
def P32_1 : Nat := 0x9E3779B1

/-- xxHash32 prime 2. -/
def P32_2 : Nat := 0x85EBCA77

/-- xxHash32 prime 3. -/
def P32_3 : Nat := 0xC2B2AE3D

/-- xxHash64 prime 5. -/
def P64_5 : Nat := 0x27D4EB2F165667C5

/-- xxh3 avalanche multiplier (`PRIME_MX1`). -/
def PMX1 : Nat := 0x165667919E3779F9

/-- xxh3 `rrmxmx` multiplier (`PRIME_MX2`). -/
def PMX2 : Nat := 0x9FB21C651E98DF25

/-- Modelled from the spec: the hash function is xxh3-64 with seed 0
(`xxhash_rust::xxh3`, not under `src/`).  This is the standard 192-byte
default secret `kSecret` of the xxh3 reference specification. -/
def kSecret : List Nat :=
  [0xb8, 0xfe, 0x6c, 0x39, 0x23, 0xa4, 0x4b, 0xbe, 0x7c, 0x01, 0x81, 0x2c, 0xf7, 0x21, 0xad, 0x1c,
   0xde, 0xd4, 0x6d, 0xe9, 0x83, 0x90, 0x97, 0xdb, 0x72, 0x40, 0xa4, 0xa4, 0xb7, 0xb3, 0x67, 0x1f,
   0xcb, 0x79, 0xe6, 0x4e, 0xcc, 0xc0, 0xe5, 0x78, 0x82, 0x5a, 0xd0, 0x7d, 0xcc, 0xff, 0x72, 0x21,
   0xb8, 0x08, 0x46, 0x74, 0xf7, 0x43, 0x24, 0x8e, 0xe0, 0x35, 0x90, 0xe6, 0x81, 0x3a, 0x26, 0x4c,
   0x3c, 0x28, 0x52, 0xbb, 0x91, 0xc3, 0x00, 0xcb, 0x88, 0xd0, 0x65, 0x8b, 0x1b, 0x53, 0x2e, 0xa3,
   0x71, 0x64, 0x48, 0x97, 0xa2, 0x0d, 0xf9, 0x4e, 0x38, 0x19, 0xef, 0x46, 0xa9, 0xde, 0xac, 0xd8,
   0xa8, 0xfa, 0x76, 0x3f, 0xe3, 0x9c, 0x34, 0x3f, 0xf9, 0xdc, 0xbb, 0xc7, 0xc7, 0x0b, 0x4f, 0x1d,
   0x8a, 0x51, 0xe0, 0x4b, 0xcd, 0xb4, 0x59, 0x31, 0xc8, 0x9f, 0x7e, 0xc9, 0xd9, 0x78, 0x73, 0x64,
   0xea, 0xc5, 0xac, 0x83, 0x34, 0xd3, 0xeb, 0xc3, 0xc5, 0x81, 0xa0, 0xff, 0xfa, 0x13, 0x63, 0xeb,
   0x17, 0x0d, 0xdd, 0x51, 0xb7, 0xf0, 0xda, 0x49, 0xd3, 0x16, 0x55, 0x26, 0x29, 0xd4, 0x68, 0x9e,
   0x2b, 0x16, 0xbe, 0x58, 0x7d, 0x47, 0xa1, 0xfc, 0x8f, 0xf8, 0xb8, 0xd1, 0x7a, 0xd0, 0x31, 0xce,
   0x45, 0xcb, 0x3a, 0x8f, 0x95, 0x16, 0x04, 0x28, 0xaf, 0xd7, 0xfb, 0xca, 0xbb, 0x4b, 0x40, 0x7e]

/-- Read a little-endian `u64` of the default secret at byte offset `o`. -/
def secRead64 (o : Nat) : Nat := read64 kSecret o

/-- Read a little-endian `u32` of the default secret at byte offset `o`. -/
def secRead32 (o : Nat) : Nat := read32 kSecret o

/-- `XXH3_mul128_fold64`: full 128-bit product folded by xor. -/
def mul128Fold64 (a b : Nat) : Nat := (a * b) % M64 ^^^ (a * b) / M64

/-- `XXH3_avalanche`. -/
def xxh3Avalanche (x : Nat) : Nat :=
  let x := x ^^^ (x >>> 37)
  let x := mul64 x PMX1
  x ^^^ (x >>> 32)

/-- `XXH64_avalanche` (used by the 0-byte and 1-3-byte xxh3 paths). -/
def xxh64Avalanche (x : Nat) : Nat :=
  let x := x ^^^ (x >>> 33)
  let x := mul64 x P64_2
  let x := x ^^^ (x >>> 29)
  let x := mul64 x P64_3
  x ^^^ (x >>> 32)

/-- `XXH3_rrmxmx` (4-8-byte path finaliser). -/
def rrmxmx (h len : Nat) : Nat :=
  let h := h ^^^ (rotl64 h 49) ^^^ (rotl64 h 24)
  let h := mul64 h PMX2
  let h := h ^^^ ((h >>> 35) + len)
  let h := mul64 h PMX2
  h ^^^ (h >>> 28)

/-- `XXH3_mix16B` at seed 0: fold the 16 input bytes at `i` with the 16
secret bytes at `s`. -/
def mix16B (data : List Nat) (i s : Nat) : Nat :=
  mul128Fold64 (read64 data i ^^^ secRead64 s) (read64 data (i+8) ^^^ secRead64 (s+8))

/-- Rounds `i, i+1, ..., i+n-1` of the 17-128/129-240-byte paths whose
secret offset equals `16*i`. -/
def mixLoopA (data : List Nat) : Nat → Nat → Nat → Nat
  | _, acc, 0 => acc
  | i, acc, n+1 => mixLoopA data (i+1) (add64 acc (mix16B data (16*i) (16*i))) n

/-- Rounds `i, ..., i+n-1` of the 129-240-byte path tail whose secret
offset equals `16*(i-8) + 3`. -/
def mixLoopB (data : List Nat) : Nat → Nat → Nat → Nat
  | _, acc, 0 => acc
  | i, acc, n+1 => mixLoopB data (i+1) (add64 acc (mix16B data (16*i) (16*(i-8)+3))) n

/-- One lane of `XXH3_accumulate_512` (scalar round): lane `i` mixes the
keyed 32x32 product into `acc[i]` and the raw input word into
`acc[i xor 1]`. -/
def acc512Lane (data : List Nat) (inOff secOff i : Nat) (acc : List Nat) : List Nat :=
  let dv := read64 data (inOff + 8*i)
  let dk := dv ^^^ secRead64 (secOff + 8*i)
  let acc := acc.set (i ^^^ 1) (add64 (acc.getD (i ^^^ 1) 0) dv)
  acc.set i (add64 (acc.getD i 0) (dk % M32 * (dk / M32)))

/-- Lanes `i, ..., i+rem-1` of `XXH3_accumulate_512`, applied in order. -/
def acc512From (data : List Nat) (inOff secOff : Nat) : Nat → Nat → List Nat → List Nat
  | _, 0, acc => acc
  | i, rem+1, acc => acc512From data inOff secOff (i+1) rem (acc512Lane data inOff secOff i acc)

/-- `XXH3_accumulate_512`: one 64-byte stripe at input offset `inOff`
keyed by the secret at offset `secOff`. -/
def accumulate512 (data : List Nat) (inOff secOff : Nat) (acc : List Nat) : List Nat :=
  acc512From data inOff secOff 0 8 acc

/-- One lane of `XXH3_scrambleAcc` (secret offset `128 = secretSize - 64`). -/
def scrambleLane (i a : Nat) : Nat :=
  mul64 ((a ^^^ (a >>> 47)) ^^^ secRead64 (128 + 8*i)) P32_1

/-- `XXH3_scrambleAcc` over the eight lanes. -/
def scrambleAcc (acc : List Nat) : List Nat :=
  (List.range 8).map (fun i => scrambleLane i (acc.getD i 0))

/-- `XXH3_accumulate`: stripes `n, ..., n+count-1` starting at input
offset `inBase + 64*n` with secret offset `8*n`. -/
def accumStripesAux (data : List Nat) (inBase : Nat) : Nat → Nat → List Nat → List Nat
  | 0, _, acc => acc
  | count+1, n, acc =>
    accumStripesAux data inBase count (n+1) (accumulate512 data (inBase + 64*n) (8*n) acc)

/-- `XXH3_accumulate` from stripe 0. -/
def accumStripes (data : List Nat) (inBase count : Nat) (acc : List Nat) : List Nat :=
  accumStripesAux data inBase count 0 acc

/-- The block loop of `XXH3_hashLong_64b`: each 1024-byte block is 16
stripes followed by a scramble. -/
def hashLongBlocks (data : List Nat) : Nat → Nat → List Nat → List Nat
  | 0, _, acc => acc
  | k+1, b, acc => hashLongBlocks data k (b+1) (scrambleAcc (accumStripes data (1024*b) 16 acc))

/-- `XXH3_mix2Accs` of lanes `2*i, 2*i+1` with the secret at `secOff`. -/
def mix2Accs (acc : List Nat) (i secOff : Nat) : Nat :=
  mul128Fold64 (acc.getD (2*i) 0 ^^^ secRead64 secOff)
    (acc.getD (2*i+1) 0 ^^^ secRead64 (secOff + 8))

/-- `XXH3_mergeAccs` with the merge secret offset `11`. -/
def mergeAccs (acc : List Nat) (start : Nat) : Nat :=
  let r := add64 start (mix2Accs acc 0 11)
  let r := add64 r (mix2Accs acc 1 27)
  let r := add64 r (mix2Accs acc 2 43)
  let r := add64 r (mix2Accs acc 3 59)
  xxh3Avalanche r

/-- `XXH3_hashLong_64b` with the default secret (inputs above 240 bytes):
full 1024-byte blocks, remaining whole stripes, the final (overlapping)
stripe keyed at secret offset `121`, then the merge keyed at offset `11`. -/
def xxh3Long (data : List Nat) : Nat :=
  let len := data.length
  let acc := [P32_3, P64_1, P64_2, P64_3, P64_4, P32_2, P64_5, P32_1]
  let nbBlocks := (len - 1) / 1024
  let acc := hashLongBlocks data nbBlocks 0 acc
  let nbStripes := ((len - 1) - 1024 * nbBlocks) / 64
  let acc := accumStripes data (1024 * nbBlocks) nbStripes acc
  let acc := accumulate512 data (len - 64) 121 acc
  mergeAccs acc (mul64 len P64_1)

/-- Modelled from the spec: `xxhash_rust::xxh3::xxh3_64` (seed 0, default
secret), the scalar hash of §4.2 ("The hash function is xxh3-64 with
seed 0"), embedded from the xxh3 reference specification. -/
def xxh3_64 (data : List Nat) : Nat :=
  let len := data.length
  if len ≤ 16 then
    if 8 < len then
      let inputLo := read64 data 0 ^^^ (secRead64 24 ^^^ secRead64 32)
      let inputHi := read64 data (len-8) ^^^ (secRead64 40 ^^^ secRead64 48)
      xxh3Avalanche (add64 (add64 (add64 len (bswap64 inputLo)) inputHi)
        (mul128Fold64 inputLo inputHi))
    else if 4 ≤ len then
      let input1 := read32 data 0
      let input2 := read32 data (len-4)
      let keyed := (input2 + input1 * M32) ^^^ (secRead64 8 ^^^ secRead64 16)
      rrmxmx keyed len
    else if 0 < len then
      let c1 := data.getD 0 0
      let c2 := data.getD (len >>> 1) 0
      let c3 := data.getD (len-1) 0
      let combined := (c1 <<< 16) ||| (c2 <<< 24) ||| c3 ||| (len <<< 8)
      xxh64Avalanche (combined ^^^ (secRead32 0 ^^^ secRead32 4))
    else
      xxh64Avalanche (secRead64 56 ^^^ secRead64 64)
  else if len ≤ 128 then
    let acc := mul64 len P64_1
    let acc := if 96 < len then
      add64 (add64 acc (mix16B data 48 96)) (mix16B data (len-64) 112) else acc
    let acc := if 64 < len then
      add64 (add64 acc (mix16B data 32 64)) (mix16B data (len-48) 80) else acc
    let acc := if 32 < len then
      add64 (add64 acc (mix16B data 16 32)) (mix16B data (len-32) 48) else acc
    let acc := add64 (add64 acc (mix16B data 0 0)) (mix16B data (len-16) 16)
    xxh3Avalanche acc
  else if len ≤ 240 then
    let acc := mixLoopA data 0 (mul64 len P64_1) 8
    let acc := xxh3Avalanche acc
    let acc := mixLoopB data 8 acc (len / 16 - 8)
    let acc := add64 acc (mix16B data (len-16) 119)
    xxh3Avalanche acc
  else
    xxh3Long data

/-! ## `hash.rs` -/

/-- `hash::CHUNK_SIZE` (256 KiB). -/
def CHUNK_SIZE : Nat := 262144

/-- `hash_bytes`: the `asm_hotpaths` build uses the `HashState` path for
data of at least 256 bytes and `xxh3_64` otherwise; without the feature
every input goes through `xxh3_64`.  `asmOn` is the build configuration. -/
def hashBytes (asmOn : Bool) (data : List Nat) : Nat :=
  if asmOn ∧ 256 ≤ data.length then hashAsm data else xxh3_64 data

/-- `hash_file`: all three I/O strategies (direct read, buffered read,
memory map) hash the file's full contents, so a file is modelled by its
content bytes. -/
def hashFile (asmOn : Bool) (content : List Nat) : Nat := hashBytes asmOn content

/-- `turbo_hash` of a file with the given contents. -/
def turboHash (asmOn : Bool) (content : List Nat) : Nat :=
  let len := content.length
  if len < 2 * CHUNK_SIZE then hashFile asmOn content
  else
    let sampleSize := 65536
    let middle := len / 2
    let combined :=
      content.take (min sampleSize len)
      ++ (if sampleSize * 2 < len then (content.drop middle).take (min sampleSize (len - middle)) else [])
      ++ (if sampleSize < len then content.drop (len - sampleSize) else [])
      ++ u64le len
    hashBytes asmOn combined

/-- Modelled from the spec (claim C5): the sampled byte string the claim
says `turbo_hash` hashes for every file of at least 128 KiB — first
64 KiB, a middle 64 KiB starting at `size/2`, the last 64 KiB, and the
little-endian 64-bit file size. -/
def specTurboCombined (content : List Nat) : List Nat :=
  content.take 65536 ++ (content.drop (content.length / 2)).take 65536
    ++ content.drop (content.length - 65536) ++ u64le content.length

/-! ## Strings and paths

Rust `String`/`str` is a sequence of Unicode scalar values, modelled by
Lean `String` (whose `data` is a `List Char` of Unicode scalars).
Filesystem paths are modelled as strings with `/` separators; filesystem
existence is an oracle `String → Bool`. -/

/-- Rust `str::replace` restricted to non-empty patterns: replace
leftmost non-overlapping occurrences.  The fuel argument only drives
structural recursion; every step consumes at least one character, so
`s.length` fuel computes the full replacement. -/
def replaceFuel : Nat → List Char → List Char → List Char → List Char
  | 0, s, _, _ => s
  | _+1, [], _, _ => []
  | fuel+1, a :: t, pat, rep =>
    if pat.isPrefixOf (a :: t) ∧ pat ≠ [] then
      rep ++ replaceFuel fuel ((a :: t).drop pat.length) pat rep
    else a :: replaceFuel fuel t pat rep

/-- Rust `str::replace` on `String` (non-empty pattern). -/
def replaceS (s pat rep : String) : String :=
  ⟨replaceFuel s.data.length s.data pat.data rep.data⟩

/-- Rust `str::trim_start_matches('/')`. -/
def trimStartSlash (s : String) : String := ⟨s.data.dropWhile (fun c => c == '/')⟩

/-- Rust `Path::join` for a relative right operand (an absolute right
operand replaces the left one). -/
def pathJoin (root s : String) : String :=
  if s.data.head? == some '/' then s else ⟨root.data ++ ('/' :: s.data)⟩

/-- Rust `Path::with_extension(ext)` for non-empty `ext`: replace the
extension of the final component (the part after its last `.`, unless
the only `.` is the leading character) by `.ext`. -/
def withExtension (p ext : String) : String :=
  let file := (p.data.reverse.takeWhile (fun c => c ≠ '/')).reverse
  let dir := p.data.take (p.data.length - file.length)
  let afterDot := file.reverse.takeWhile (fun c => c ≠ '.')
  let stem :=
    if afterDot.length == file.length then file
    else if file.length - afterDot.length == 1 then file
    else file.take (file.length - afterDot.length - 1)
  ⟨dir ++ stem ++ ('.' :: ext.data)⟩

/-- Rust `str::to_lowercase`, modelled per character (coincides with the
Rust function on ASCII, the only case exercised here). -/
def toLowerS (s : String) : String := ⟨s.data.map Char.toLower⟩

/-- Rust `str::contains(pat)` for a literal pattern. -/
def containsSub : List Char → List Char → Bool
  | [], pat => pat.isEmpty
  | a :: t, pat => pat.isPrefixOf (a :: t) || containsSub t pat

/-- `contains` on `String`. -/
def containsSubS (s pat : String) : Bool := containsSub s.data pat.data

/-- `graph::resolve_import_path` (`graph.rs`): strip leading slashes,
textually replace `/Game/` and `/Engine/`, join under the project root,
set the `uasset` extension, and test existence. -/
def resolveImportPath (fsExists : String → Bool) (projectRoot imp : String) : Option String :=
  let cleaned := replaceS (replaceS (trimStartSlash imp) ("/Game/") ("Content/"))
    ("/Engine/") ("Engine/Content/")
  let path := withExtension (pathJoin projectRoot cleaned) ("uasset")
  if fsExists path then some path else none

/-! ## `scanner.rs` data model -/

/-- `scanner::AssetType`. -/
inductive AssetType where
  | UAsset | UMap | UExp | UBulk | Shader | Texture | Audio | Animation
  | Blueprint | Material | Other
deriving Repr, DecidableEq, Inhabited

/-- `scanner::AssetInfo`. -/
structure AssetInfo where
  path : String
  relative_path : String
  asset_type : AssetType
  size_bytes : Nat
  modified : Nat
deriving Repr, DecidableEq, Inhabited

/-! ## `graph.rs`

`petgraph::DiGraph` is modelled by a node list (node index = list
position), an edge list, and the side index `path_to_node` as an
association list whose later inserts shadow earlier ones. -/

/-- `graph::DependencyType`. -/
inductive DependencyType where
  | Import | SoftReference | Blueprint | Material | Texture | Animation
deriving Repr, DecidableEq

/-- `graph::DependencyEdge`. -/
structure DependencyEdgeData where
  dependency_type : DependencyType
  is_hard : Bool
deriving Repr, DecidableEq

/-- `graph::AssetNode`. -/
structure AssetNode where
  path : String
  asset_type : AssetType
  is_startup_critical : Bool
  load_order : Option Nat
deriving Repr, DecidableEq, Inhabited

/-- One directed edge of the petgraph `DiGraph`. -/
structure EdgeRec where
  src : Nat
  tgt : Nat
  data : DependencyEdgeData
deriving Repr, DecidableEq

/-- `graph::DependencyGraph`. -/
structure DepGraph where
  nodes : List AssetNode
  edges : List EdgeRec
  pathToNode : List (String × Nat)
deriving Repr, DecidableEq

/-- `DependencyGraph::new()`. -/
def emptyGraph : DepGraph := ⟨[], [], []⟩

/-- `HashMap::get` on the association list (later inserts are consed in
front and shadow earlier ones). -/
def lookupPath (m : List (String × Nat)) (p : String) : Option Nat :=
  match m.find? (fun e => e.1 == p) with
  | some e => some e.2
  | none => none

/-- `DependencyGraph::add_asset` (the returned node index is dropped). -/
def addAsset (g : DepGraph) (a : AssetInfo) : DepGraph :=
  match lookupPath g.pathToNode a.path with
  | some _ => g
  | none =>
    let nd : AssetNode :=
      { path := a.path, asset_type := a.asset_type,
        is_startup_critical := false, load_order := none }
    { g with
      nodes := g.nodes ++ [nd],
      pathToNode := (a.path, g.nodes.length) :: g.pathToNode }

/-- `DependencyGraph::add_dependency`. -/
def addDependency (g : DepGraph) (srcPath tgtPath : String)
    (dep : DependencyType) (isHard : Bool) : DepGraph :=
  match lookupPath g.pathToNode srcPath with
  | none => g
  | some fromIdx =>
    match lookupPath g.pathToNode tgtPath with
    | none => g
    | some toIdx =>
      { g with edges := g.edges ++ [⟨fromIdx, toIdx, ⟨dep, isHard⟩⟩] }

/-- Outgoing neighbours of node `i` in petgraph iteration order (most
recently added edge first). -/
def neighborsOut (g : DepGraph) (i : Nat) : List Nat :=
  ((g.edges.filter (fun e => e.src == i)).map (fun e => e.tgt)).reverse

/-- `DependencyGraph::build`, with the scanner result, the per-package
parser of imports (`UAssetParser::parse_imports`, `Err` as `none`) and
filesystem existence supplied as oracles. -/
def buildGraph (fsExists : String → Bool) (projectRoot : String)
    (assets : List AssetInfo) (parseImports : String → Option (List String)) : DepGraph :=
  let g := assets.foldl addAsset emptyGraph
  let deps := (assets.filter (fun a => a.asset_type == AssetType.UAsset)).filterMap
    (fun a => (parseImports a.path).map (fun imps => (a.path, imps)))
  deps.foldl (fun g si =>
    si.2.foldl (fun g imp =>
      match resolveImportPath fsExists projectRoot imp with
      | some target => addDependency g si.1 target DependencyType.Import true
      | none => g) g) g

/-- The inner stack loop of `petgraph::algo::toposort`: peek the stack
top; on first discovery push its undiscovered successors (erroring on a
self loop), otherwise pop it and finish it (erroring when a successor is
unfinished).  State: `(discovered, finished, finishStack)`; `none`
reports a cycle.  The fuel only drives structural recursion; each
iteration either discovers a node (at most `n` times, each pushing at
most `e` entries) or pops one entry, so
`(n+1)*(e+2) + 2` fuel always runs the loop to completion. -/
def toposortInner (g : DepGraph) :
    Nat → List Nat → List Nat × List Nat × List Nat → Option (List Nat × List Nat × List Nat)
  | 0, _, st => some st
  | _+1, [], st => some st
  | fuel+1, nx :: stack, (disc, fin, fstack) =>
    if nx ∈ disc then
      if nx ∈ fin then toposortInner g fuel stack (disc, fin, fstack)
      else if (neighborsOut g nx).any (fun s => decide (s ∉ fin)) then none
      else toposortInner g fuel stack (disc, nx :: fin, fstack ++ [nx])
    else
      if (neighborsOut g nx).contains nx then none
      else
        toposortInner g fuel
          (((neighborsOut g nx).filter (fun s => decide (s ∉ nx :: disc))).reverse ++ nx :: stack)
          (nx :: disc, fin, fstack)

/-- The outer loop of `petgraph::algo::toposort` over all node indices. -/
def toposortGo (g : DepGraph) (fuel : Nat) :
    List Nat → List Nat × List Nat × List Nat → Option (List Nat × List Nat × List Nat)
  | [], st => some st
  | i :: rest, (disc, fin, fstack) =>
    if i ∈ disc then toposortGo g fuel rest (disc, fin, fstack)
    else match toposortInner g fuel [i] (disc, fin, fstack) with
      | none => none
      | some st => toposortGo g fuel rest st

/-- `petgraph::algo::toposort`: `some` of the node indices in
topological order (the reversed finish stack), `none` on a cycle. -/
def toposortPG (g : DepGraph) : Option (List Nat) :=
  let fuel := (g.nodes.length + 1) * (g.edges.length + 2) + 2
  match toposortGo g fuel (List.range g.nodes.length) ([], [], []) with
  | none => none
  | some st => some st.2.2.reverse

/-- Assign `load_order := some rank` to the node at `idx`. -/
def assignRank (ns : List AssetNode) (idx rank : Nat) : List AssetNode :=
  match ns.get? idx with
  | some nd => ns.set idx { nd with load_order := some rank }
  | none => ns

/-- `DependencyGraph::compute_load_order`: on success ranks follow the
topological order; on a cycle the fallback ranks nodes in index order. -/
def computeLoadOrder (g : DepGraph) : DepGraph :=
  match toposortPG g with
  | some order => { g with nodes := order.enum.foldl (fun ns p => assignRank ns p.2 p.1) g.nodes }
  | none => { g with nodes := (List.range g.nodes.length).foldl (fun ns i => assignRank ns i i) g.nodes }

/-- Stable insertion used to model the stable `sort_by_key`. -/
def insertByKey (key : AssetNode → Nat) (a : AssetNode) : List AssetNode → List AssetNode
  | [] => [a]
  | b :: t => if key a ≤ key b then a :: b :: t else b :: insertByKey key a t

/-- `DependencyGraph::get_load_order`: stable sort of the nodes by
`load_order.unwrap_or(u32::MAX)`. -/
def getLoadOrder (g : DepGraph) : List AssetNode :=
  g.nodes.foldr (insertByKey (fun n => n.load_order.getD 4294967295)) []

/-- `petgraph::visit::Dfs` driven to exhaustion: the set (as a list) of
nodes yielded by a depth-first traversal from the start stack.  Each
iteration pops one entry and pushes only on a first visit, so
`(n+1)*(e+2) + 1` fuel (see `dfsFuel`) always exhausts the stack. -/
def dfsVisit (g : DepGraph) : Nat → List Nat → List Nat → List Nat
  | 0, _, vis => vis
  | _+1, [], vis => vis
  | fuel+1, n :: stk, vis =>
    if n ∈ vis then dfsVisit g fuel stk vis
    else dfsVisit g fuel
      (((neighborsOut g n).filter (fun s => decide (s ∉ n :: vis))).reverse ++ stk) (n :: vis)

/-- Sufficient DFS fuel for graph `g`. -/
def dfsFuel (g : DepGraph) : Nat := (g.nodes.length + 1) * (g.edges.length + 2) + 1

/-- The seed predicate of `filter_startup_critical`: a `Map` asset or a
path whose lowercase form contains `startup`. -/
def isSeedNode (nd : AssetNode) : Bool :=
  nd.asset_type == AssetType.UMap || containsSubS (toLowerS nd.path) ("startup")

/-- Indices of the seed nodes, in node-index order. -/
def seedIdxs (g : DepGraph) : List Nat :=
  (g.nodes.enum.filter (fun p => isSeedNode p.2)).map (fun p => p.1)

/-- One iteration of the marking loop of `filter_startup_critical`: set
the criticality flag of seed `i` and of every node its DFS yields. -/
def markCritical (g : DepGraph) (i : Nat) : DepGraph :=
  let visited := dfsVisit g (dfsFuel g) [i] []
  { g with nodes := g.nodes.enum.map (fun p =>
      if p.1 = i ∨ p.1 ∈ visited then { p.2 with is_startup_critical := true } else p.2) }

/-- `petgraph`'s `Graph::remove_node`: drop the edges incident to `i`,
then move the last node into slot `i`, renumbering edge endpoints that
referred to the last index.  (`path_to_node` is untouched; the caller
rebuilds it.) -/
def removeNodePG (g : DepGraph) (i : Nat) : DepGraph :=
  if i < g.nodes.length then
    let last := g.nodes.length - 1
    let ren := fun x => if x = last then i else x
    { g with
      nodes := (g.nodes.set i (g.nodes.getD last default)).dropLast,
      edges := (g.edges.filter (fun e => ¬(e.src = i ∨ e.tgt = i))).map
        (fun e => { e with src := ren e.src, tgt := ren e.tgt }) }
  else g

/-- `DependencyGraph::filter_startup_critical`: mark the seeds and their
DFS closures, remove the non-critical nodes in descending index order,
and rebuild the path index. -/
def filterStartupCritical (g : DepGraph) : DepGraph :=
  let marked := (seedIdxs g).foldl markCritical g
  let nonCritical := (marked.nodes.enum.filter (fun p => ¬ p.2.is_startup_critical)).map
    (fun p => p.1)
  let g2 := nonCritical.reverse.foldl removeNodePG marked
  { g2 with pathToNode := g2.nodes.enum.foldl (fun m p => (p.2.path, p.1) :: m) [] }

/-- The node stored at index `i`. -/
def nodeAt (g : DepGraph) (i : Nat) : AssetNode := g.nodes.getD i default

/-- Edge relation of the graph at index level. -/
def hasEdge (g : DepGraph) (i j : Nat) : Prop :=
  ∃ e ∈ g.edges, e.src = i ∧ e.tgt = j

/-- Directed reachability along graph edges. -/
inductive ReachIdx (g : DepGraph) : Nat → Nat → Prop where
  | refl (i : Nat) : ReachIdx g i i
  | tail {i j k : Nat} : ReachIdx g i j → hasEdge g j k → ReachIdx g i k

/-! ## `uasset.rs` -/

/-- `i32::from_le_bytes`. -/
def i32FromLE (b0 b1 b2 b3 : Nat) : Int :=
  let v := b0 + 256*b1 + 65536*b2 + 16777216*b3
  if v < 2147483648 then (v : Int) else (v : Int) - 4294967296

/-- Rust `x as usize` for an `i32` value (sign extension into a 64-bit
unsigned machine word). -/
def i32AsUsize (x : Int) : Nat := (x % 18446744073709551616).toNat

/-- The Unicode replacement character `U+FFFD`. -/
def replChar : Char := Char.ofNat 65533

/-- Whether `b` is a UTF-8 continuation byte. -/
def utf8Cont (b : Nat) : Bool := 128 ≤ b ∧ b < 192

/-- `String::from_utf8_lossy`: decode UTF-8, replacing each maximal
invalid subpart by `U+FFFD`.  One fuel unit per decoded character; each
step consumes at least one byte, so `bytes.length` fuel decodes fully. -/
def utf8LossyFuel : Nat → List Nat → List Char
  | 0, _ => []
  | _+1, [] => []
  | fuel+1, b :: rest =>
    if b < 128 then Char.ofNat b :: utf8LossyFuel fuel rest
    else if 194 ≤ b ∧ b ≤ 223 then
      match rest with
      | b1 :: rest1 =>
        if utf8Cont b1 then Char.ofNat ((b-192)*64 + (b1-128)) :: utf8LossyFuel fuel rest1
        else replChar :: utf8LossyFuel fuel rest
      | [] => [replChar]
    else if 224 ≤ b ∧ b ≤ 239 then
      match rest with
      | b1 :: rest1 =>
        if (if b = 224 then 160 ≤ b1 ∧ b1 < 192
            else if b = 237 then 128 ≤ b1 ∧ b1 < 160
            else utf8Cont b1 = true) then
          match rest1 with
          | b2 :: rest2 =>
            if utf8Cont b2 then
              Char.ofNat ((b-224)*4096 + (b1-128)*64 + (b2-128)) :: utf8LossyFuel fuel rest2
            else replChar :: utf8LossyFuel fuel rest1
          | [] => [replChar]
        else replChar :: utf8LossyFuel fuel rest
      | [] => [replChar]
    else if 240 ≤ b ∧ b ≤ 244 then
      match rest with
      | b1 :: rest1 =>
        if (if b = 240 then 144 ≤ b1 ∧ b1 < 192
            else if b = 244 then 128 ≤ b1 ∧ b1 < 144
            else utf8Cont b1 = true) then
          match rest1 with
          | b2 :: rest2 =>
            if utf8Cont b2 then
              match rest2 with
              | b3 :: rest3 =>
                if utf8Cont b3 then
                  Char.ofNat ((b-240)*262144 + (b1-128)*4096 + (b2-128)*64 + (b3-128))
                    :: utf8LossyFuel fuel rest3
                else replChar :: utf8LossyFuel fuel rest2
              | [] => [replChar]
            else replChar :: utf8LossyFuel fuel rest1
          | [] => [replChar]
        else replChar :: utf8LossyFuel fuel rest
      | [] => [replChar]
    else replChar :: utf8LossyFuel fuel rest

/-- `String::from_utf8_lossy` packaged as a `String`. -/
def utf8Lossy (bytes : List Nat) : String := ⟨utf8LossyFuel bytes.length bytes⟩

/-- The `chunks(2)` + `u16::from_le_bytes` step of the parser's UTF-16
branches: an odd trailing byte is paired with 0. -/
def utf16Units : List Nat → List Nat
  | [] => []
  | [b] => [b]
  | b0 :: b1 :: rest => (b0 + 256*b1) :: utf16Units rest

/-- `String::from_utf16_lossy` on code units: pair surrogates, replace
lone surrogates by `U+FFFD`. -/
def utf16LossyFuel : Nat → List Nat → List Char
  | 0, _ => []
  | _+1, [] => []
  | fuel+1, u :: rest =>
    if u < 55296 ∨ 57344 ≤ u then Char.ofNat u :: utf16LossyFuel fuel rest
    else if u < 56320 then
      match rest with
      | u2 :: rest2 =>
        if 56320 ≤ u2 ∧ u2 < 57344 then
          Char.ofNat (65536 + (u - 55296)*1024 + (u2 - 56320)) :: utf16LossyFuel fuel rest2
        else replChar :: utf16LossyFuel fuel rest
      | [] => [replChar]
    else replChar :: utf16LossyFuel fuel rest

/-- `String::from_utf16_lossy` of a little-endian byte slice. -/
def utf16LossyBytes (bytes : List Nat) : String :=
  ⟨utf16LossyFuel bytes.length (utf16Units bytes)⟩

/-- The loop body of `UAssetParser::read_name_table`: `count` remaining
entries, current byte offset, accumulated names.  A short read breaks
out of the loop, returning the names accumulated so far. -/
def readNameTableGo (mm : List Nat) : Nat → Nat → List String → List String
  | 0, _, names => names
  | count+1, offset, names =>
    if mm.length < offset + 4 then names
    else
      let len := i32FromLE (mm.getD offset 0) (mm.getD (offset+1) 0)
        (mm.getD (offset+2) 0) (mm.getD (offset+3) 0)
      let offset := offset + 4
      if len ≤ 0 then readNameTableGo mm count offset (names ++ [("" : String)])
      else
        let strLen := len.natAbs
        if mm.length < offset + strLen then names
        else
          let name :=
            if 0 < len then utf8Lossy ((mm.drop offset).take (strLen - 1))
            else utf16LossyBytes ((mm.drop offset).take strLen)
          let offset := offset + strLen
          let offset := if offset + 4 ≤ mm.length then offset + 4 else offset
          readNameTableGo mm count offset (names ++ [name])

/-- `UAssetParser::read_name_table` over a memory-mapped byte buffer. -/
def readNameTable (mm : List Nat) (nameCount nameOffset : Int) : List String :=
  readNameTableGo mm nameCount.toNat (i32AsUsize nameOffset) []

/-- Modelled from the spec (claim C6): for a negative length prefix
`len` the entry decodes `|len|` little-endian UTF-16 code units from the
bytes following the prefix (invalid UTF-16 replaced, not failing). -/
def specNegEntryDecode (mm : List Nat) (entryOffset : Nat) (len : Int) : String :=
  utf16LossyBytes ((mm.drop (entryOffset + 4)).take (2 * len.natAbs))

/-! ## `cache.rs` -/

/-- `cache::CachedAsset`. -/
structure CachedAsset where
  relative_path : String
  asset_type : AssetType
  content_hash : Nat
  size_bytes : Nat
  load_order : Nat
  is_startup_critical : Bool
deriving Repr, DecidableEq

/-- `cache::ShaderVariant`. -/
structure ShaderVariant where
  name : String
  hash : Nat
  platform : String
deriving Repr, DecidableEq

/-- `cache::StartupCache`.  `created_at` is the chrono
`DateTime<Utc>` field, modelled as an abstract instant (a `Nat`); its
serde form is modelled below. -/
structure StartupCache where
  version : String
  created_at : Nat
  project_name : String
  hash_algorithm : String
  assets : List CachedAsset
  load_order : List String
  shader_variants : List ShaderVariant
deriving Repr, DecidableEq

/-- `cache::VerifyResult`. -/
structure VerifyResult where
  is_valid : Bool
  total_assets : Nat
  matching_assets : Nat
  changed_assets : List String
  missing_assets : List String
deriving Repr, DecidableEq

/-- The rescan `HashMap` keyed by `relative_path`: later list entries
override earlier ones, as in `HashMap::from_iter`. -/
def currentLookup (current : List AssetInfo) (p : String) : Option AssetInfo :=
  current.foldl (fun acc a => if a.relative_path == p then some a else acc) none

/-- One iteration of the `StartupCache::verify` loop; state is
`(matching, changed, missing)`. -/
def verifyStep (current : List AssetInfo) (hashOracle : String → Option Nat)
    (st : Nat × List String × List String) (cached : CachedAsset) :
    Nat × List String × List String :=
  match currentLookup current cached.relative_path with
  | some cur =>
    match hashOracle cur.path with
    | some h =>
      if h = cached.content_hash then (st.1 + 1, st.2.1, st.2.2)
      else (st.1, st.2.1 ++ [cached.relative_path], st.2.2)
    | none => (st.1, st.2.1 ++ [cached.relative_path], st.2.2)
  | none => (st.1, st.2.1, st.2.2 ++ [cached.relative_path])

/-- `StartupCache::verify`, with the rescan result (`scan_all`) and the
full-hash computation (`hash_file`, `Err` as `none`) as oracles. -/
def cacheVerify (cache : StartupCache) (current : List AssetInfo)
    (hashOracle : String → Option Nat) : VerifyResult :=
  let st := cache.assets.foldl (verifyStep current hashOracle) (0, [], [])
  { is_valid := st.2.1.isEmpty && st.2.2.isEmpty
    total_assets := cache.assets.length
    matching_assets := st.1
    changed_assets := st.2.1
    missing_assets := st.2.2 }

/-- Rust `Path::file_name` (modelled total; the project-root inputs used
here have a final non-empty component). -/
def fileNameOf (p : String) : String :=
  ⟨(p.data.reverse.takeWhile (fun c => c ≠ '/')).reverse⟩

/-- `StartupCache::new`, with the ambient `crate::VERSION` and
`Utc::now()` passed explicitly. -/
def startupCacheNew (version : String) (createdAt : Nat) (projectName : String) : StartupCache :=
  { version := version, created_at := createdAt, project_name := projectName,
    hash_algorithm := ("xxh3"), assets := [], load_order := [], shader_variants := [] }

/-- `iter_mut().find(|a| a.relative_path == p)` followed by setting the
criticality flag: only the first matching cached asset is marked. -/
def markFirstMatch : List CachedAsset → String → List CachedAsset
  | [], _ => []
  | a :: t, p =>
    if a.relative_path == p then { a with is_startup_critical := true } :: t
    else a :: markFirstMatch t p

/-- `CacheBuilder::build`.  The two `scan_all` invocations (one direct,
one inside `DependencyGraph::build`) are modelled by the same scan
result; hashing, import parsing and file existence are oracles. -/
def cacheBuild (fsExists : String → Bool) (projectRoot : String) (assets : List AssetInfo)
    (parseImports : String → Option (List String)) (hashOracle : String → Option Nat)
    (version : String) (createdAt : Nat) : StartupCache :=
  let cache := startupCacheNew version createdAt (fileNameOf projectRoot)
  let cachedAssets := assets.enum.filterMap (fun p =>
    (hashOracle p.2.path).map (fun h =>
      ({ relative_path := p.2.relative_path, asset_type := p.2.asset_type,
         content_hash := h, size_bytes := p.2.size_bytes, load_order := p.1,
         is_startup_critical := false } : CachedAsset)))
  let graph := computeLoadOrder (buildGraph fsExists projectRoot assets parseImports)
  let ordered := getLoadOrder graph
  let finalAssets := ordered.foldl (fun cas nd =>
    if nd.is_startup_critical then markFirstMatch cas nd.path else cas) cachedAssets
  { cache with assets := finalAssets, load_order := ordered.map (fun nd => nd.path) }

/-! ## Manifest persistence (`save`/`load`)

`StartupCache::save` writes the 8-byte magic `UEFAST01` followed by the
`bincode` serialization of the record; `load` checks the magic and
deserializes.  `bincode` (1.x, `serialize_into`/`deserialize_from`
defaults: fixed-width little-endian integers, `u64` lengths) and
chrono's serde are dependency crates, so their formats are modelled from
their documented behaviour. -/

/-- `crate::CACHE_MAGIC = b"UEFAST01"`. -/
def cacheMagic : List Nat := [85, 69, 70, 65, 83, 84, 48, 49]

/-- bincode `u32`: four little-endian bytes. -/
def encU32 (n : Nat) : List Nat := [byteAt n 0, byteAt n 1, byteAt n 2, byteAt n 3]

/-- bincode `u64`: eight little-endian bytes. -/
def encU64 (n : Nat) : List Nat := u64le n

/-- Decode a bincode `u32`. -/
def decU32 : List Nat → Option (Nat × List Nat)
  | b0 :: b1 :: b2 :: b3 :: rest => some (b0 + 256*(b1 + 256*(b2 + 256*b3)), rest)
  | _ => none

/-- Decode a bincode `u64`. -/
def decU64 : List Nat → Option (Nat × List Nat)
  | b0 :: b1 :: b2 :: b3 :: b4 :: b5 :: b6 :: b7 :: rest =>
    some (b0 + 256*(b1 + 256*(b2 + 256*(b3 + 256*(b4 + 256*(b5 + 256*(b6 + 256*b7)))))), rest)
  | _ => none

/-- bincode `bool`: one byte, 0 or 1. -/
def encBool (b : Bool) : List Nat := [if b then 1 else 0]

/-- Decode a bincode `bool` (any byte other than 0/1 is an error). -/
def decBool : List Nat → Option (Bool × List Nat)
  | 0 :: rest => some (false, rest)
  | 1 :: rest => some (true, rest)
  | _ => none

/-- UTF-8 encoding of one Unicode scalar (`String` stores UTF-8). -/
def utf8EncChar (c : Char) : List Nat :=
  let v := c.toNat
  if v < 128 then [v]
  else if v < 2048 then [192 + v / 64, 128 + v % 64]
  else if v < 65536 then [224 + v / 4096, 128 + v / 64 % 64, 128 + v % 64]
  else [240 + v / 262144, 128 + v / 4096 % 64, 128 + v / 64 % 64, 128 + v % 64]

/-- UTF-8 encoding of a scalar sequence. -/
def utf8Enc (cs : List Char) : List Nat := (cs.map utf8EncChar).flatten

/-- Validating UTF-8 decoder (`String::from_utf8` semantics: any invalid
byte sequence is an error).  Fuel as in `utf8LossyFuel`. -/
def utf8DecV : Nat → List Nat → Option (List Char)
  | 0, [] => some []
  | 0, _ :: _ => none
  | _+1, [] => some []
  | fuel+1, b :: rest =>
    if b < 128 then (utf8DecV fuel rest).map (fun cs => Char.ofNat b :: cs)
    else if 194 ≤ b ∧ b ≤ 223 then
      match rest with
      | b1 :: rest1 =>
        if utf8Cont b1 then
          (utf8DecV fuel rest1).map (fun cs => Char.ofNat ((b-192)*64 + (b1-128)) :: cs)
        else none
      | [] => none
    else if 224 ≤ b ∧ b ≤ 239 then
      match rest with
      | b1 :: b2 :: rest2 =>
        if (if b = 224 then 160 ≤ b1 ∧ b1 < 192
            else if b = 237 then 128 ≤ b1 ∧ b1 < 160
            else utf8Cont b1 = true) ∧ utf8Cont b2 then
          (utf8DecV fuel rest2).map
            (fun cs => Char.ofNat ((b-224)*4096 + (b1-128)*64 + (b2-128)) :: cs)
        else none
      | _ => none
    else if 240 ≤ b ∧ b ≤ 244 then
      match rest with
      | b1 :: b2 :: b3 :: rest3 =>
        if (if b = 240 then 144 ≤ b1 ∧ b1 < 192
            else if b = 244 then 128 ≤ b1 ∧ b1 < 144
            else utf8Cont b1 = true) ∧ utf8Cont b2 ∧ utf8Cont b3 then
          (utf8DecV fuel rest3).map
            (fun cs => Char.ofNat ((b-240)*262144 + (b1-128)*4096 + (b2-128)*64 + (b3-128)) :: cs)
        else none
      | _ => none
    else none

/-- bincode `String`: `u64` byte length, then the UTF-8 bytes. -/
def encStr (s : String) : List Nat :=
  encU64 (utf8Enc s.data).length ++ utf8Enc s.data

/-- Decode a bincode `String` (short reads and invalid UTF-8 error). -/
def decStr (b : List Nat) : Option (String × List Nat) :=
  (decU64 b).bind fun p =>
    if p.2.length < p.1 then none
    else (utf8DecV p.1 (p.2.take p.1)).map fun cs => (⟨cs⟩, p.2.drop p.1)

/-- bincode sequence: `u64` element count, then the elements. -/
def encList (enc : α → List Nat) (l : List α) : List Nat :=
  encU64 l.length ++ (l.map enc).flatten

/-- Decode `count` bincode elements. -/
def decListN (dec : List Nat → Option (α × List Nat)) :
    Nat → List Nat → Option (List α × List Nat)
  | 0, b => some ([], b)
  | n+1, b =>
    (dec b).bind fun p => (decListN dec n p.2).map fun q => (p.1 :: q.1, q.2)

/-- Decode a bincode sequence. -/
def decList (dec : List Nat → Option (α × List Nat)) (b : List Nat) :
    Option (List α × List Nat) :=
  (decU64 b).bind fun p => decListN dec p.1 p.2

/-- The serde variant index of `AssetType` (declaration order). -/
def assetTypeIdx : AssetType → Nat
  | .UAsset => 0 | .UMap => 1 | .UExp => 2 | .UBulk => 3 | .Shader => 4
  | .Texture => 5 | .Audio => 6 | .Animation => 7 | .Blueprint => 8
  | .Material => 9 | .Other => 10

/-- bincode enum encoding of `AssetType`: `u32` variant index. -/
def encAssetType (t : AssetType) : List Nat := encU32 (assetTypeIdx t)

/-- Decode an `AssetType` variant index. -/
def decAssetType (b : List Nat) : Option (AssetType × List Nat) :=
  (decU32 b).bind fun p =>
    (match p.1 with
     | 0 => some AssetType.UAsset | 1 => some AssetType.UMap
     | 2 => some AssetType.UExp | 3 => some AssetType.UBulk
     | 4 => some AssetType.Shader | 5 => some AssetType.Texture
     | 6 => some AssetType.Audio | 7 => some AssetType.Animation
     | 8 => some AssetType.Blueprint | 9 => some AssetType.Material
     | 10 => some AssetType.Other | _ => none).map fun t => (t, p.2)

/-- Decimal digit character. -/
def digitChar (d : Nat) : Char := Char.ofNat (48 + d % 10)

/-- Decimal digits of `n`, most significant first (fuel-driven; `n`
itself is always sufficient fuel). -/
def natDigitsFuel : Nat → Nat → List Char
  | 0, n => [digitChar n]
  | fuel+1, n => if n < 10 then [digitChar n] else natDigitsFuel fuel (n / 10) ++ [digitChar (n % 10)]

/-- Decimal rendering of `n`. -/
def natDigits (n : Nat) : List Char := natDigitsFuel n n

/-- Parse a non-empty all-digit character list as a decimal number. -/
def parseDigits (cs : List Char) : Option Nat :=
  if cs ≠ [] ∧ cs.all (fun c => 48 ≤ c.toNat ∧ c.toNat ≤ 57) then
    some (cs.foldl (fun acc c => acc * 10 + (c.toNat - 48)) 0)
  else none

/-- Modelled from the spec: chrono serializes `DateTime<Utc>` as its
RFC-3339 string and parses it back on deserialization (`created_at` is
"creation timestamp (RFC-3339)").  The chrono crate is not under
`src/`; the rendering is modelled as the injective decimal rendering of
the abstract instant, with the parser as its inverse. -/
def encTimestamp (t : Nat) : List Nat := encStr ⟨natDigits t⟩

/-- Inverse of `encTimestamp` (chrono's deserializer). -/
def decTimestamp (b : List Nat) : Option (Nat × List Nat) :=
  (decStr b).bind fun p => (parseDigits p.1.data).map fun t => (t, p.2)

/-- bincode encoding of `CachedAsset` (fields in declaration order). -/
def encCachedAsset (a : CachedAsset) : List Nat :=
  encStr a.relative_path ++ encAssetType a.asset_type ++ encU64 a.content_hash ++
    encU64 a.size_bytes ++ encU32 a.load_order ++ encBool a.is_startup_critical

/-- Decode a `CachedAsset`. -/
def decCachedAsset (b : List Nat) : Option (CachedAsset × List Nat) :=
  (decStr b).bind fun p1 =>
  (decAssetType p1.2).bind fun p2 =>
  (decU64 p2.2).bind fun p3 =>
  (decU64 p3.2).bind fun p4 =>
  (decU32 p4.2).bind fun p5 =>
  (decBool p5.2).map fun p6 =>
  ({ relative_path := p1.1, asset_type := p2.1, content_hash := p3.1,
     size_bytes := p4.1, load_order := p5.1, is_startup_critical := p6.1 }, p6.2)

/-- bincode encoding of `ShaderVariant`. -/
def encShaderVariant (v : ShaderVariant) : List Nat :=
  encStr v.name ++ encU64 v.hash ++ encStr v.platform

/-- Decode a `ShaderVariant`. -/
def decShaderVariant (b : List Nat) : Option (ShaderVariant × List Nat) :=
  (decStr b).bind fun p1 =>
  (decU64 p1.2).bind fun p2 =>
  (decStr p2.2).map fun p3 =>
  ({ name := p1.1, hash := p2.1, platform := p3.1 }, p3.2)

/-- bincode encoding of `StartupCache` (fields in declaration order). -/
def encCache (m : StartupCache) : List Nat :=
  encStr m.version ++ encTimestamp m.created_at ++ encStr m.project_name ++
    encStr m.hash_algorithm ++ encList encCachedAsset m.assets ++
    encList encStr m.load_order ++ encList encShaderVariant m.shader_variants

/-- Decode a `StartupCache`. -/
def decCache (b : List Nat) : Option (StartupCache × List Nat) :=
  (decStr b).bind fun p1 =>
  (decTimestamp p1.2).bind fun p2 =>
  (decStr p2.2).bind fun p3 =>
  (decStr p3.2).bind fun p4 =>
  (decList decCachedAsset p4.2).bind fun p5 =>
  (decList decStr p5.2).bind fun p6 =>
  (decList decShaderVariant p6.2).map fun p7 =>
  ({ version := p1.1, created_at := p2.1, project_name := p3.1,
     hash_algorithm := p4.1, assets := p5.1, load_order := p6.1,
     shader_variants := p7.1 }, p7.2)

/-- `StartupCache::save`: the bytes written to the cache file. -/
def saveCache (m : StartupCache) : List Nat := cacheMagic ++ encCache m

/-- The error outcomes of `StartupCache::load`. -/
inductive LoadErr where
  | ioShort
  | badMagic
  | serde
deriving Repr, DecidableEq

/-- `StartupCache::load` from the file's bytes: `read_exact` of the
8-byte magic (I/O error when shorter), exact comparison against
`CACHE_MAGIC`, then deserialization of the remainder (trailing bytes
after the record are not rejected by `deserialize_from`). -/
def loadCache (file : List Nat) : Except LoadErr StartupCache :=
  if file.length < 8 then .error .ioShort
  else if file.take 8 ≠ cacheMagic then .error .badMagic
  else
    match decCache (file.drop 8) with
    | some p => .ok p.1
    | none => .error .serde

/-- Rust-representability of a string field: its UTF-8 byte length fits
`u64` (every Lean `Char` is already a Unicode scalar, as in Rust). -/
def wfStr (s : String) : Bool := decide ((utf8Enc s.data).length < M64)

/-- Rust-representability of a `CachedAsset`. -/
def wfCachedAsset (a : CachedAsset) : Bool :=
  wfStr a.relative_path && decide (a.content_hash < M64) &&
    decide (a.size_bytes < M64) && decide (a.load_order < M32)

/-- Rust-representability of a `ShaderVariant`. -/
def wfShaderVariant (v : ShaderVariant) : Bool :=
  wfStr v.name && decide (v.hash < M64) && wfStr v.platform

/-- Rust-representability of a `StartupCache` value: every numeric field
fits its machine type and every sequence length fits `u64`. -/
def wfCache (m : StartupCache) : Bool :=
  wfStr m.version && decide (m.created_at < M64) && wfStr m.project_name &&
    wfStr m.hash_algorithm && m.assets.all wfCachedAsset &&
    decide (m.assets.length < M64) && m.load_order.all wfStr &&
    decide (m.load_order.length < M64) && m.shader_variants.all wfShaderVariant &&
    decide (m.shader_variants.length < M64)

/-- Proof helper: the effect of one all-zero 32-byte block on the four
`HashState` accumulators. -/
def zstep (s : HashSt) : HashSt :=
  { s with
    a0 := laneStep s.a0 0
    a1 := laneStep s.a1 0
    a2 := laneStep s.a2 0
    a3 := laneStep s.a3 0 }

/-- Proof helper: `k` consecutive all-zero blocks. -/
def iterZ : Nat → HashSt → HashSt
  | 0, s => s
  | k+1, s => iterZ k (zstep s)

/-! ## Concrete fixtures used by the claim theorems -/

/-- Load-order rank recorded for the node with path `p`. -/
def rankOf (g : DepGraph) (p : String) : Option Nat :=
  match g.nodes.find? (fun nd => nd.path == p) with
  | some nd => nd.load_order
  | none => none

/-- A project whose filesystem contains exactly
`/proj/Content/Characters/Hero.uasset`. -/
def heroFs : String → Bool := fun p => p == "/proj/Content/Characters/Hero.uasset"

/-- A filesystem containing exactly `/proj/Game/Characters/Hero.uasset`. -/
def heroGameFs : String → Bool := fun p => p == "/proj/Game/Characters/Hero.uasset"

/-- Package file `A.uasset` of the two-package scenario. -/
def assetA : AssetInfo :=
  { path := "/proj/Content/A.uasset", relative_path := "Content/A.uasset",
    asset_type := AssetType.UAsset, size_bytes := 4, modified := 0 }

/-- Package file `B.uasset` of the two-package scenario. -/
def assetB : AssetInfo :=
  { path := "/proj/Content/B.uasset", relative_path := "Content/B.uasset",
    asset_type := AssetType.UAsset, size_bytes := 4, modified := 0 }

/-- Filesystem of the two-package scenario. -/
def abFs : String → Bool := fun p => p == assetA.path || p == assetB.path

/-- Import tables of the two-package scenario: `A` imports `/Game/B`,
`B` imports nothing. -/
def abImports : String → Option (List String) := fun p =>
  if p == assetA.path then some [("/Game/B")]
  else if p == assetB.path then some [] else none

/-- The graph the pipeline builds for the two-package scenario when the
scanner enumerates `B` before `A` (the scanner guarantees no order). -/
def abGraph : DepGraph :=
  computeLoadOrder (buildGraph abFs ("/proj") [assetB, assetA] abImports)

/-- The single startup map of the criticality scenario. -/
def mapAsset : AssetInfo :=
  { path := "/proj/Content/Main.umap", relative_path := "Content/Main.umap",
    asset_type := AssetType.UMap, size_bytes := 4, modified := 0 }

/-- Filesystem of the criticality scenario. -/
def mapFs : String → Bool := fun p => p == mapAsset.path

/-- Hashing oracle of the criticality scenario. -/
def mapHashes : String → Option Nat := fun p => if p == mapAsset.path then some 42 else none

/-- The manifest `CacheBuilder::build` produces for the criticality
scenario. -/
def mapCacheResult : StartupCache :=
  cacheBuild mapFs ("/proj") [mapAsset] (fun _ => none) mapHashes ("1.0") 0

/-- The dependency graph of the criticality scenario. -/
def mapGraph : DepGraph := buildGraph mapFs ("/proj") [mapAsset] (fun _ => none)

/-- A name-table buffer holding one entry with length prefix `-2`
followed by the UTF-16LE code units of `AB` (no trailing hash word). -/
def negEntryBuf : List Nat := [254, 255, 255, 255, 65, 0, 66, 0]

/-- The manifest record the claim C2 scenario actually produces. -/
def mapCachedRecord : CachedAsset :=
  { relative_path := ("Content/Main.umap"), asset_type := AssetType.UMap,
    content_hash := 42, size_bytes := 4, load_order := 0,
    is_startup_critical := false }

/-- Every edge endpoint is a node index registered in the path index. -/
def edgesRegistered (g : DepGraph) : Prop :=
  ∀ e ∈ g.edges, e.src ∈ g.pathToNode.map Prod.snd ∧ e.tgt ∈ g.pathToNode.map Prod.snd

/-- The condition under which `verify` classifies a cached asset as
changed: the file is found by the rescan but hashing fails or disagrees
with the stored fingerprint. -/
def changedCond (current : List AssetInfo) (hashOracle : String → Option Nat)
    (ca : CachedAsset) : Prop :=
  ∃ cur, currentLookup current ca.relative_path = some cur ∧
    (hashOracle cur.path = none ∨ ∃ h, hashOracle cur.path = some h ∧ h ≠ ca.content_hash)

/-- A small concrete manifest record for the round-trip witness. -/
def rtAsset : CachedAsset :=
  { relative_path := ("Content/Main.umap"), asset_type := AssetType.UMap,
    content_hash := 42, size_bytes := 4, load_order := 0,
    is_startup_critical := true }

/-- A small concrete shader record for the round-trip witness. -/
def rtShader : ShaderVariant :=
  { name := ("S"), hash := 9, platform := ("PC") }

/-- A small concrete manifest for the round-trip witness. -/
def rtCache : StartupCache :=
  { version := ("1.0"), created_at := 7, project_name := ("Proj"),
    hash_algorithm := ("xxh3"), assets := [rtAsset],
    load_order := [("Content/Main.umap")], shader_variants := [rtShader] }

/-- The number of graph nodes not yet visited (DFS termination measure). -/
def unvis (g : DepGraph) (vis : List Nat) : Nat :=
  ((Finset.range g.nodes.length).filter (fun j => j ∉ vis)).card

/-- Reachability from some criticality seed of the original graph. -/
def seedReach (g : DepGraph) (j : Nat) : Prop :=
  ∃ s, s < g.nodes.length ∧ isSeedNode (nodeAt g s) = true ∧ ReachIdx g s j

/-! # Claim theorems -/

set_option maxRecDepth 100000

/-- Claim C1 (code bug): on the failing input, import `/Game/Characters/Hero`
with `<root>/Content/Characters/Hero.uasset` present on disk,
`resolve_import_path` returns `None` — the `/Game/` rewrite never fires
because the leading `/` was already stripped — and the path it would
accept is `<root>/Game/Characters/Hero.uasset`, contradicting both the
claim and the function's own documentation comment. -/
theorem resolve_import_path_misses_game_content :
    resolveImportPath heroFs ("/proj") ("/Game/Characters/Hero") = none ∧
    resolveImportPath heroGameFs ("/proj") ("/Game/Characters/Hero") =
      some ("/proj/Game/Characters/Hero.uasset") := by
  decide

/-- Claim C2 (code bug): for a project consisting of the single map
`Content/Main.umap`, the map is a criticality seed (so it belongs to the
graph's critical set — `filter_startup_critical` retains exactly it),
yet the manifest record `CacheBuilder::build` produces for it has
`is_startup_critical = false`: `build` never computes graph criticality
and its marking loop compares relative against absolute paths. -/
theorem cache_build_never_marks_startup_critical :
    mapCacheResult.assets = [mapCachedRecord] ∧
    mapCachedRecord.is_startup_critical = false ∧
    isSeedNode (nodeAt mapGraph 0) = true ∧
    (filterStartupCritical mapGraph).nodes.map (fun nd => nd.path) =
      [("/proj/Content/Main.umap")] := by
  decide

/-- Claim C3 (code bug): in the two-package scenario (`A` imports
`/Game/B`, both files under `Content/`), with the scanner enumerating
`B` first, the built graph has no edge at all (the import fails to
resolve) and `compute_load_order` assigns `rank(A) = 0` and
`rank(B) = 1`, so `rank(B) < rank(A)` fails. -/
theorem load_order_rank_not_before_importer :
    abGraph.edges = [] ∧
    rankOf abGraph assetA.path = some 0 ∧
    rankOf abGraph assetB.path = some 1 := by
  decide

/-- General form of the `read_name_table` guard (`uasset.rs`,
`if len <= 0 { names.push(String::new()); continue; }`): on every
buffer, whenever the four prefix bytes at the current offset decode to a
non-positive signed length, the loop iteration pushes the empty string
and continues right after the prefix, without touching the payload —
the function's UTF-16 branch (guarded by `len > 0` after `len <= 0` was
already excluded) can never run. -/
theorem readNameTableGo_nonpos_len_skips (mm : List Nat) (count offset : Nat)
    (names : List String)
    (hread : offset + 4 ≤ mm.length)
    (hneg : i32FromLE (mm.getD offset 0) (mm.getD (offset+1) 0)
      (mm.getD (offset+2) 0) (mm.getD (offset+3) 0) ≤ 0) :
    readNameTableGo mm (count+1) offset names =
      readNameTableGo mm count (offset + 4) (names ++ [("" : String)]) := by
  simp only [readNameTableGo]
  rw [if_neg (by omega), if_pos hneg]

/-- Closed instance of `readNameTableGo_nonpos_len_skips` at the claim
C6 entry: the guard hypotheses hold for `negEntryBuf` at offset `0`. -/
theorem readNameTableGo_nonpos_len_skips_concrete :
    (0 + 4 ≤ negEntryBuf.length ∧
      i32FromLE (negEntryBuf.getD 0 0) (negEntryBuf.getD (0+1) 0)
        (negEntryBuf.getD (0+2) 0) (negEntryBuf.getD (0+3) 0) ≤ 0) ∧
    readNameTableGo negEntryBuf 1 0 [] =
      readNameTableGo negEntryBuf 0 (0 + 4) ([] ++ [("" : String)]) :=
  ⟨⟨by decide, by decide⟩,
    readNameTableGo_nonpos_len_skips negEntryBuf 0 0 [] (by decide) (by decide)⟩

/-- Claim C6 (code bug): a name-table entry with negative length prefix
`-2` (bytes `FE FF FF FF`) followed by the UTF-16LE code units of `AB`
decodes to the empty string — `read_name_table`'s `len <= 0` guard
pushes `String::new()` and continues, so its UTF-16 branch is dead code
— while the claimed decoding of the entry (`|len|` little-endian UTF-16
code units, as `read_fstring` would produce) is `AB`. -/
theorem name_table_negative_length_yields_empty_string :
    i32FromLE 254 255 255 255 = -2 ∧
    readNameTable negEntryBuf 1 0 = [("" : String)] ∧
    specNegEntryDecode negEntryBuf 0 (-2) = ("AB") ∧
    (("" : String) ≠ ("AB")) := by
  decide

/-- Claim C4 (code bug): on 256 zero bytes — the smallest inputs routed
to the vectorised path — the `HashState` accumulator path
(`hash_bytes` with kernels enabled) and the scalar xxh3-64-seed-0 path
(`hash_bytes` without kernels) disagree: the former is a four-lane
XXH64-style mix, not xxh3.  The two build configurations therefore
produce different fingerprints for identical content. -/
theorem hash_paths_disagree_on_256_zero_bytes :
    hashBytes true (List.replicate 256 0) ≠ hashBytes false (List.replicate 256 0) := by
  decide

/-- A successful path-index lookup returns a registered node index. -/
theorem lookupPath_mem_snd {m : List (String × Nat)} {p : String} {i : Nat}
    (h : lookupPath m p = some i) : i ∈ m.map Prod.snd := by
  unfold lookupPath at h
  cases hf : m.find? (fun e => e.1 == p) with
  | none => rw [hf] at h; exact absurd h (by simp)
  | some e =>
    rw [hf] at h
    have hmem := List.mem_of_find?_eq_some hf
    simp only [Option.some.injEq] at h
    exact h ▸ List.mem_map_of_mem Prod.snd hmem

/-- Claim C10: `add_dependency` with an unregistered source or target
path leaves the graph untouched, and consequently the
everything-registered edge invariant is preserved by `add_dependency`
(and by `add_asset`, holding trivially for the empty graph). -/
theorem add_dependency_requires_registered_nodes (g : DepGraph)
    (srcPath tgtPath : String) (dt : DependencyType) (hard : Bool) (a : AssetInfo) :
    ((lookupPath g.pathToNode srcPath = none ∨ lookupPath g.pathToNode tgtPath = none) →
      addDependency g srcPath tgtPath dt hard = g) ∧
    (edgesRegistered g → edgesRegistered (addDependency g srcPath tgtPath dt hard)) ∧
    (edgesRegistered g → edgesRegistered (addAsset g a)) ∧
    edgesRegistered emptyGraph := by
  refine ⟨?_, ?_, ?_, ?_⟩
  · intro h
    unfold addDependency
    cases hs : lookupPath g.pathToNode srcPath with
    | none => rfl
    | some i =>
      cases ht : lookupPath g.pathToNode tgtPath with
      | none => rfl
      | some j =>
        rcases h with h | h
        · exact absurd hs (by simp [h])
        · exact absurd ht (by simp [h])
  · intro hg
    unfold addDependency
    cases hs : lookupPath g.pathToNode srcPath with
    | none => exact hg
    | some i =>
      cases ht : lookupPath g.pathToNode tgtPath with
      | none => exact hg
      | some j =>
        intro e he
        simp only [List.mem_append, List.mem_singleton] at he
        rcases he with he | he
        · exact hg e he
        · subst he
          exact ⟨lookupPath_mem_snd hs, lookupPath_mem_snd ht⟩
  · intro hg
    unfold addAsset
    cases hl : lookupPath g.pathToNode a.path with
    | some i => exact hg
    | none =>
      intro e he
      simp only at he
      rcases hg e he with ⟨h1, h2⟩
      constructor
      · exact List.mem_map.mpr (by
          rcases List.mem_map.mp h1 with ⟨q, hq, hqe⟩
          exact ⟨q, List.mem_cons_of_mem _ hq, hqe⟩)
      · exact List.mem_map.mpr (by
          rcases List.mem_map.mp h2 with ⟨q, hq, hqe⟩
          exact ⟨q, List.mem_cons_of_mem _ hq, hqe⟩)
  · intro e he
    exact absurd he (by simp [emptyGraph])

/-- Witness for claim C10 at a concrete graph: the single-map graph has
no node for path `nope`, and `add_dependency` targeting it is the
identity. -/
theorem add_dependency_requires_registered_nodes_witness :
    lookupPath (addAsset emptyGraph mapAsset).pathToNode ("nope") = none ∧
    addDependency (addAsset emptyGraph mapAsset) mapAsset.path ("nope")
      DependencyType.Import true = addAsset emptyGraph mapAsset :=
  ⟨by decide,
    (add_dependency_requires_registered_nodes (addAsset emptyGraph mapAsset)
      mapAsset.path ("nope") DependencyType.Import true mapAsset).1 (Or.inr (by decide))⟩

/-- Membership in the changed list accumulated by the `verify` fold. -/
theorem mem_changed_fold (current : List AssetInfo) (hashOracle : String → Option Nat) :
    ∀ (assets : List CachedAsset) (st : Nat × List String × List String) (p : String),
      p ∈ (assets.foldl (verifyStep current hashOracle) st).2.1 ↔
        p ∈ st.2.1 ∨ ∃ ca ∈ assets, ca.relative_path = p ∧ changedCond current hashOracle ca := by
  intro assets
  induction assets with
  | nil => intro st p; simp
  | cons a t ih =>
    intro st p
    rw [List.foldl_cons, ih]
    have hstep : (verifyStep current hashOracle st a).2.1 = st.2.1 ∨
        ((verifyStep current hashOracle st a).2.1 = st.2.1 ++ [a.relative_path] ∧
          changedCond current hashOracle a) := by
      cases hcl : currentLookup current a.relative_path with
      | none => exact Or.inl (by simp [verifyStep, hcl])
      | some cur =>
        cases hor : hashOracle cur.path with
        | none => exact Or.inr ⟨by simp [verifyStep, hcl, hor], cur, hcl, Or.inl hor⟩
        | some h =>
          by_cases hh : h = a.content_hash
          · exact Or.inl (by simp [verifyStep, hcl, hor, hh])
          · exact Or.inr ⟨by simp [verifyStep, hcl, hor, hh],
              cur, hcl, Or.inr ⟨h, hor, hh⟩⟩
    constructor
    · rintro (hp | ⟨ca, hca, hrp, hcc⟩)
      · rcases hstep with he | ⟨he, hcc⟩
        · rw [he] at hp; exact Or.inl hp
        · rw [he] at hp
          rcases List.mem_append.mp hp with hp | hp
          · exact Or.inl hp
          · simp only [List.mem_singleton] at hp
            exact Or.inr ⟨a, List.mem_cons_self a t, hp.symm, hcc⟩
      · exact Or.inr ⟨ca, List.mem_cons_of_mem a hca, hrp, hcc⟩
    · rintro (hp | ⟨ca, hca, hrp, hcc⟩)
      · rcases hstep with he | ⟨he, _⟩
        · rw [he]; exact Or.inl hp
        · rw [he]; exact Or.inl (List.mem_append.mpr (Or.inl hp))
      · rcases List.mem_cons.mp hca with hac | hac
        · subst hac
          rcases hstep with he | ⟨he, _⟩
          · -- the step did not push, yet `ca` satisfies the changed
            -- condition: impossible, the step pushes exactly then
            exfalso
            rcases hcc with ⟨cur, hcl, hbad⟩
            rcases hbad with hor | ⟨h2, hor, hne⟩
            · simp [verifyStep, hcl, hor] at he
            · simp [verifyStep, hcl, hor, if_neg hne] at he
          · rw [he]
            exact Or.inl (List.mem_append.mpr (Or.inr (by simp [hrp])))
        · exact Or.inr ⟨ca, hac, hrp, hcc⟩

/-- Membership in the missing list accumulated by the `verify` fold. -/
theorem mem_missing_fold (current : List AssetInfo) (hashOracle : String → Option Nat) :
    ∀ (assets : List CachedAsset) (st : Nat × List String × List String) (p : String),
      p ∈ (assets.foldl (verifyStep current hashOracle) st).2.2 ↔
        p ∈ st.2.2 ∨ ∃ ca ∈ assets, ca.relative_path = p ∧
          currentLookup current ca.relative_path = none := by
  intro assets
  induction assets with
  | nil => intro st p; simp
  | cons a t ih =>
    intro st p
    rw [List.foldl_cons, ih]
    have hstep : ((verifyStep current hashOracle st a).2.2 = st.2.2 ∧
          currentLookup current a.relative_path ≠ none) ∨
        ((verifyStep current hashOracle st a).2.2 = st.2.2 ++ [a.relative_path] ∧
          currentLookup current a.relative_path = none) := by
      cases hcl : currentLookup current a.relative_path with
      | none => exact Or.inr ⟨by simp [verifyStep, hcl], rfl⟩
      | some cur =>
        cases hor : hashOracle cur.path with
        | none => exact Or.inl ⟨by simp [verifyStep, hcl, hor], by simp [hcl]⟩
        | some h =>
          by_cases hh : h = a.content_hash
          · exact Or.inl ⟨by simp [verifyStep, hcl, hor, hh], by simp [hcl]⟩
          · exact Or.inl ⟨by simp [verifyStep, hcl, hor, hh], by simp [hcl]⟩
    constructor
    · rintro (hp | ⟨ca, hca, hrp, hcc⟩)
      · rcases hstep with ⟨he, _⟩ | ⟨he, hnone⟩
        · rw [he] at hp; exact Or.inl hp
        · rw [he] at hp
          rcases List.mem_append.mp hp with hp | hp
          · exact Or.inl hp
          · simp only [List.mem_singleton] at hp
            exact Or.inr ⟨a, List.mem_cons_self a t, hp.symm, hnone⟩
      · exact Or.inr ⟨ca, List.mem_cons_of_mem a hca, hrp, hcc⟩
    · rintro (hp | ⟨ca, hca, hrp, hcc⟩)
      · rcases hstep with ⟨he, _⟩ | ⟨he, _⟩
        · rw [he]; exact Or.inl hp
        · rw [he]; exact Or.inl (List.mem_append.mpr (Or.inl hp))
      · rcases List.mem_cons.mp hca with hac | hac
        · subst hac
          rcases hstep with ⟨he, hne⟩ | ⟨he, _⟩
          · exact absurd hcc hne
          · rw [he]
            exact Or.inl (List.mem_append.mpr (Or.inr (by simp [hrp])))
        · exact Or.inr ⟨ca, hac, hrp, hcc⟩

/-- Claim C7: `verify` reports exactly the right diffs — a path is in
`changed_assets` iff some manifest record carries it, the rescan finds
the file, and the recomputed full hash fails or differs; a path is in
`missing_assets` iff some manifest record carries it and the rescan does
not find it; and `is_valid` holds iff both lists are empty. -/
theorem verify_reports_exact_diffs (cache : StartupCache) (current : List AssetInfo)
    (hashOracle : String → Option Nat) :
    (∀ p, p ∈ (cacheVerify cache current hashOracle).changed_assets ↔
      ∃ ca ∈ cache.assets, ca.relative_path = p ∧ changedCond current hashOracle ca) ∧
    (∀ p, p ∈ (cacheVerify cache current hashOracle).missing_assets ↔
      ∃ ca ∈ cache.assets, ca.relative_path = p ∧
        currentLookup current ca.relative_path = none) ∧
    ((cacheVerify cache current hashOracle).is_valid = true ↔
      (cacheVerify cache current hashOracle).changed_assets = [] ∧
      (cacheVerify cache current hashOracle).missing_assets = []) := by
  refine ⟨?_, ?_, ?_⟩
  · intro p
    have := mem_changed_fold current hashOracle cache.assets (0, [], []) p
    simpa [cacheVerify] using this
  · intro p
    have := mem_missing_fold current hashOracle cache.assets (0, [], []) p
    simpa [cacheVerify] using this
  · simp [cacheVerify, List.isEmpty_iff]

/-- Witness for claim C7 at a concrete instance: an empty manifest
verifies as valid against an empty rescan. -/
theorem verify_reports_exact_diffs_witness :
    (cacheVerify (startupCacheNew ("1.0") 0 ("p")) [] (fun _ => none)).is_valid = true ↔
    (cacheVerify (startupCacheNew ("1.0") 0 ("p")) [] (fun _ => none)).changed_assets = [] ∧
    (cacheVerify (startupCacheNew ("1.0") 0 ("p")) [] (fun _ => none)).missing_assets = [] :=
  (verify_reports_exact_diffs (startupCacheNew ("1.0") 0 ("p")) [] (fun _ => none)).2.2

/-- `getD` inside the zero prefix of a padded buffer. -/
theorem getD_zeros {m i : Nat} {tl : List Nat} (h : i < m) :
    (List.replicate m (0:Nat) ++ tl).getD i 0 = 0 := by
  rw [List.getD_append _ _ _ _ (by simpa using h)]
  simp [List.getD, List.getElem?_replicate, h]

/-- `read64` inside the zero prefix of a padded buffer. -/
theorem read64_zeros {m : Nat} (tl : List Nat) (i : Nat) (h : i + 8 ≤ m) :
    read64 (List.replicate m (0:Nat) ++ tl) i = 0 := by
  have e0 := @getD_zeros m (i) tl (show i < m by omega)
  have e1 := @getD_zeros m (i + 1) tl (show i + 1 < m by omega)
  have e2 := @getD_zeros m (i + 2) tl (show i + 2 < m by omega)
  have e3 := @getD_zeros m (i + 3) tl (show i + 3 < m by omega)
  have e4 := @getD_zeros m (i + 4) tl (show i + 4 < m by omega)
  have e5 := @getD_zeros m (i + 5) tl (show i + 5 < m by omega)
  have e6 := @getD_zeros m (i + 6) tl (show i + 6 < m by omega)
  have e7 := @getD_zeros m (i + 7) tl (show i + 7 < m by omega)
  unfold read64
  rw [e0, e1, e2, e3, e4, e5, e6, e7]

/-- A 32-byte block taken from the zero prefix acts as `zstep`. -/
theorem processBlock_zeros {m : Nat} (s : HashSt) (tl : List Nat) (h : 32 ≤ m) :
    processBlock s (List.replicate m (0:Nat) ++ tl) = zstep s := by
  unfold processBlock zstep
  rw [read64_zeros tl 0 (by omega), read64_zeros tl 8 (by omega),
    read64_zeros tl 16 (by omega), read64_zeros tl 24 (by omega)]

/-- `k` blocks taken from the zero prefix act as `iterZ k`. -/
theorem processBlocks_zeros :
    ∀ (k : Nat) (s : HashSt) (m : Nat) (tl : List Nat), 32 * k ≤ m →
      processBlocks k s (List.replicate m (0:Nat) ++ tl) = iterZ k s := by
  intro k
  induction k with
  | zero => intro s m tl _; rfl
  | succ k ih =>
    intro s m tl h
    show processBlocks k (processBlock s _) ((List.replicate m (0:Nat) ++ tl).drop 32) = _
    have hdrop : (List.replicate m (0:Nat) ++ tl).drop 32 =
        List.replicate (m - 32) 0 ++ tl := by
      rw [List.drop_append_eq_append_drop, List.drop_replicate, List.length_replicate,
        show 32 - m = 0 by omega, List.drop_zero]
    rw [processBlock_zeros s tl (by omega), hdrop, ih (zstep s) (m - 32) tl (by omega)]
    rfl

/-- `iterZ` only touches the accumulators. -/
theorem iterZ_totalLen_set : ∀ (k : Nat) (s : HashSt) (x : Nat),
    iterZ k { s with totalLen := x } = { iterZ k s with totalLen := x } := by
  intro k
  induction k with
  | zero => intro s x; rfl
  | succ k ih =>
    intro s x
    show iterZ k (zstep { s with totalLen := x }) = _
    have : zstep { s with totalLen := x } = { zstep s with totalLen := x } := rfl
    rw [this, ih (zstep s) x]
    rfl

/-- `iterZ` composes additively. -/
theorem iterZ_comp : ∀ (a b : Nat) (s : HashSt), iterZ (a + b) s = iterZ b (iterZ a s) := by
  intro a
  induction a with
  | zero => intro b s; rw [Nat.zero_add]; rfl
  | succ a ih =>
    intro b s
    rw [show a + 1 + b = (a + b) + 1 by omega]
    show iterZ (a + b) (zstep s) = iterZ b (iterZ a (zstep s))
    exact ih b (zstep s)

/-- `hsUpdate` on a chunk shorter than one block only counts its length. -/
theorem hsUpdate_short (s : HashSt) (tl : List Nat) (h : tl.length < 32) :
    hsUpdate s tl = { s with totalLen := s.totalLen + tl.length } := by
  unfold hsUpdate
  rw [if_neg (by omega)]

/-- `hsUpdate` on a 32 KiB zero chunk with a short (sub-block) tail. -/
theorem hsUpdate_zeros (s : HashSt) (tl : List Nat) (h : tl.length < 32) :
    hsUpdate s (List.replicate 32768 (0:Nat) ++ tl) =
      { iterZ 1024 s with totalLen := s.totalLen + (32768 + tl.length) } := by
  unfold hsUpdate
  have hlen : (List.replicate 32768 (0:Nat) ++ tl).length = 32768 + tl.length := by
    simp only [List.length_append, List.length_replicate]
  rw [hlen]
  have hbc : (32768 + tl.length) / 32 = 1024 := by omega
  rw [hbc, if_pos (by omega)]
  rw [processBlocks_zeros 1024 _ 32768 tl (by omega), iterZ_totalLen_set]

/-- Folding `hsUpdate` over `k` full zero chunks. -/
theorem foldl_update_zero_chunks : ∀ (k : Nat) (s : HashSt),
    (List.replicate k (List.replicate 32768 (0:Nat))).foldl hsUpdate s =
      { iterZ (1024 * k) s with totalLen := s.totalLen + 32768 * k } := by
  intro k
  induction k with
  | zero => intro s; cases s; rfl
  | succ k ih =>
    intro s
    rw [List.replicate_succ, List.foldl_cons]
    have hz : hsUpdate s (List.replicate 32768 (0:Nat)) =
        { iterZ 1024 s with totalLen := s.totalLen + 32768 } := by
      have h' := hsUpdate_zeros s [] (by simp)
      rw [List.append_nil] at h'
      rw [h']
      simp only [List.length_nil, Nat.add_zero]
    rw [hz, ih]
    have h1 : iterZ (1024 * k) { iterZ 1024 s with totalLen := s.totalLen + 32768 } =
        { iterZ (1024 * k) (iterZ 1024 s) with totalLen := s.totalLen + 32768 } :=
      iterZ_totalLen_set _ _ _
    rw [h1]
    have h2 : ∀ a b t, iterZ a (iterZ b t) = iterZ (b + a) t := by
      intro a b
      induction b with
      | zero => intro t; rw [Nat.zero_add]; rfl
      | succ b ihb =>
        intro t
        show iterZ a (iterZ b (zstep t)) = _
        rw [ihb (zstep t), show b + 1 + a = (b + a) + 1 by omega]
        rfl
    rw [h2]
    have h3 : 1024 + 1024 * k = 1024 * (k + 1) := by ring
    have h4 : s.totalLen + 32768 + 32768 * k = s.totalLen + 32768 * (k + 1) := by ring
    rw [h3, h4]

/-- `chunksFuel` of the empty list. -/
theorem chunksFuel_nil : ∀ f, chunksFuel f [] = [] := by
  intro f; cases f <;> rfl

/-- Chunking a buffer of `k` full zero chunks followed by a short tail. -/
theorem chunksFuel_zeros : ∀ (k f : Nat) (tl : List Nat), tl.length ≤ 32768 →
    chunksFuel (k + f) (List.replicate (32768 * k) (0:Nat) ++ tl) =
      List.replicate k (List.replicate 32768 0) ++ chunksFuel f tl := by
  intro k
  induction k with
  | zero =>
    intro f tl _
    simp only [Nat.zero_add, Nat.mul_zero, List.replicate_zero, List.nil_append]
  | succ k ih =>
    intro f tl htl
    have hsplit : List.replicate (32768 * (k + 1)) (0:Nat) ++ tl =
        List.replicate 32768 0 ++ (List.replicate (32768 * k) 0 ++ tl) := by
      rw [show 32768 * (k + 1) = 32768 + 32768 * k by ring, List.replicate_add,
        List.append_assoc]
    have hcons : List.replicate (32768 * (k + 1)) (0:Nat) ++ tl =
        0 :: (List.replicate 32767 0 ++ (List.replicate (32768 * k) 0 ++ tl)) := by
      rw [hsplit]; rfl
    rw [show k + 1 + f = (k + f) + 1 by omega, hcons]
    show ((0 :: (List.replicate 32767 0 ++ _)).take 32768) ::
      chunksFuel (k + f) ((0 :: (List.replicate 32767 0 ++ _)).drop 32768) = _
    have hback : (0:Nat) :: (List.replicate 32767 0 ++ (List.replicate (32768 * k) 0 ++ tl)) =
        List.replicate 32768 0 ++ (List.replicate (32768 * k) 0 ++ tl) := rfl
    rw [hback, List.take_left' (List.length_replicate 32768 0),
      List.drop_left' (List.length_replicate 32768 0), ih f tl htl]
    rfl

/-- Chunking a short non-empty buffer yields a single chunk. -/
theorem chunksFuel_small : ∀ (f : Nat) (tl : List Nat), tl ≠ [] → tl.length ≤ 32768 →
    1 ≤ f → chunksFuel f tl = [tl] := by
  intro f tl h1 h2 hf
  cases f with
  | zero => omega
  | succ f =>
    cases tl with
    | nil => exact absurd rfl h1
    | cons a t =>
      show ((a :: t).take 32768) :: chunksFuel f ((a :: t).drop 32768) = [a :: t]
      rw [List.take_of_length_le h2, List.drop_eq_nil_of_le h2, chunksFuel_nil]

/-- `hash_bytes_asm` of 128 KiB of zeros. -/
theorem hashAsm_zeros_131072 :
    hashAsm (List.replicate 131072 (0:Nat)) =
      hsFinalize { iterZ 4096 (hsNew 0) with totalLen := 131072 } := by
  unfold hashAsm chunks32k
  have h1 : List.replicate 131072 (0:Nat) = List.replicate (32768 * 4) 0 ++ [] := by
    rw [List.append_nil]
  rw [List.length_replicate, h1, show (131072:Nat) = 4 + 131068 from rfl,
    chunksFuel_zeros 4 131068 [] (by simp), chunksFuel_nil, List.append_nil,
    foldl_update_zero_chunks]
  norm_num [hsNew]

/-- `hash_bytes_asm` of 192 KiB of zeros followed by the 8 length bytes. -/
theorem hashAsm_zeros_196608 :
    hashAsm (List.replicate 196608 (0:Nat) ++ u64le 131072) =
      hsFinalize { iterZ 6144 (hsNew 0) with totalLen := 196616 } := by
  unfold hashAsm chunks32k
  have hlen8 : (u64le 131072).length = 8 := by simp [u64le]
  have hlen : (List.replicate 196608 (0:Nat) ++ u64le 131072).length = 196616 := by
    rw [List.length_append, List.length_replicate, hlen8]
  have h1 : List.replicate 196608 (0:Nat) = List.replicate (32768 * 6) 0 := rfl
  rw [hlen, h1, show (196616:Nat) = 6 + 196610 from rfl,
    chunksFuel_zeros 6 196610 (u64le 131072) (by rw [hlen8]; omega),
    chunksFuel_small 196610 (u64le 131072) (by simp [u64le]) (by rw [hlen8]; omega)
      (by omega),
    List.foldl_append, foldl_update_zero_chunks, List.foldl_cons, List.foldl_nil,
    hsUpdate_short _ _ (by rw [hlen8]; omega), hlen8]
  norm_num [hsNew]

/-- Claim C5 counterexample: for the 128 KiB all-zero file (kernels
enabled), `turbo_hash` is the full-content hash — the sampling threshold
is `2 * CHUNK_SIZE = 512 KiB`, not 128 KiB — and it differs from the
hash of the claim's sampled concatenation. -/
theorem turbo_hash_not_sampled_at_128KiB :
    turboHash true (List.replicate 131072 (0:Nat)) ≠
      hashBytes true (specTurboCombined (List.replicate 131072 0)) := by
  have hL : turboHash true (List.replicate 131072 (0:Nat)) =
      hsFinalize { iterZ 4096 (hsNew 0) with totalLen := 131072 } := by
    unfold turboHash
    rw [List.length_replicate, if_pos (by norm_num [CHUNK_SIZE])]
    unfold hashFile hashBytes
    rw [if_pos ⟨rfl, by rw [List.length_replicate]; omega⟩]
    exact hashAsm_zeros_131072
  have hspec : specTurboCombined (List.replicate 131072 (0:Nat)) =
      List.replicate 196608 0 ++ u64le 131072 := by
    unfold specTurboCombined
    rw [List.length_replicate, List.take_replicate, List.drop_replicate,
      List.take_replicate,
      show ((65536:Nat) ⊓ 131072) = 65536 by norm_num,
      show ((65536:Nat) ⊓ (131072 - 131072 / 2)) = 65536 by norm_num,
      show ((131072:Nat) - 131072 / 2) = 65536 by norm_num,
      show (196608:Nat) = 65536 + (65536 + 65536) by norm_num,
      List.replicate_add, List.replicate_add]
    simp only [List.append_assoc]
  have hR : hashBytes true (specTurboCombined (List.replicate 131072 0)) =
      hsFinalize { iterZ 6144 (hsNew 0) with totalLen := 196616 } := by
    rw [hspec]
    unfold hashBytes
    have hl : (List.replicate 196608 (0:Nat) ++ u64le 131072).length = 196616 := by
      rw [List.length_append, List.length_replicate, show (u64le 131072).length = 8 by
        simp [u64le]]
    rw [if_pos ⟨rfl, by rw [hl]; omega⟩]
    exact hashAsm_zeros_196608
  have t1 : iterZ 256 (hsNew 0) = (⟨5484641665370648050, 17779241900701620597, 0, 4679840707647624317, 0⟩ : HashSt) := by decide
  have t2 : iterZ 512 (hsNew 0) = (⟨16926533864869911421, 8582006887156844687, 0, 18289047761131870713, 0⟩ : HashSt) := by
    rw [show (512:Nat) = 256 + 256 from rfl, iterZ_comp, t1]; decide
  have t3 : iterZ 768 (hsNew 0) = (⟨10411872960134603085, 704897581639008757, 0, 6495393849370284821, 0⟩ : HashSt) := by
    rw [show (768:Nat) = 512 + 256 from rfl, iterZ_comp, t2]; decide
  have t4 : iterZ 1024 (hsNew 0) = (⟨15836848595801178113, 13359458789612058652, 0, 10919910145530607450, 0⟩ : HashSt) := by
    rw [show (1024:Nat) = 768 + 256 from rfl, iterZ_comp, t3]; decide
  have t5 : iterZ 1280 (hsNew 0) = (⟨15017954115766708612, 95386098979980091, 0, 14686054776264737556, 0⟩ : HashSt) := by
    rw [show (1280:Nat) = 1024 + 256 from rfl, iterZ_comp, t4]; decide
  have t6 : iterZ 1536 (hsNew 0) = (⟨4370964767477007767, 15945310834063930974, 0, 13616738305639366921, 0⟩ : HashSt) := by
    rw [show (1536:Nat) = 1280 + 256 from rfl, iterZ_comp, t5]; decide
  have t7 : iterZ 1792 (hsNew 0) = (⟨4199849940074483240, 3508787324641663297, 0, 4999101931518069063, 0⟩ : HashSt) := by
    rw [show (1792:Nat) = 1536 + 256 from rfl, iterZ_comp, t6]; decide
  have t8 : iterZ 2048 (hsNew 0) = (⟨2406050257625309140, 8761966160219451582, 0, 5412553522815624949, 0⟩ : HashSt) := by
    rw [show (2048:Nat) = 1792 + 256 from rfl, iterZ_comp, t7]; decide
  have t9 : iterZ 2304 (hsNew 0) = (⟨9181427380772653012, 14902047951059682548, 0, 6829212117394365467, 0⟩ : HashSt) := by
    rw [show (2304:Nat) = 2048 + 256 from rfl, iterZ_comp, t8]; decide
  have t10 : iterZ 2560 (hsNew 0) = (⟨2963126972621530074, 15521725581364413256, 0, 6599654408785972025, 0⟩ : HashSt) := by
    rw [show (2560:Nat) = 2304 + 256 from rfl, iterZ_comp, t9]; decide
  have t11 : iterZ 2816 (hsNew 0) = (⟨1530717086188318698, 4469692049601529607, 0, 15674303202662413587, 0⟩ : HashSt) := by
    rw [show (2816:Nat) = 2560 + 256 from rfl, iterZ_comp, t10]; decide
  have t12 : iterZ 3072 (hsNew 0) = (⟨17430123242255899825, 76281860561480441, 0, 5285860005769064264, 0⟩ : HashSt) := by
    rw [show (3072:Nat) = 2816 + 256 from rfl, iterZ_comp, t11]; decide
  have t13 : iterZ 3328 (hsNew 0) = (⟨15659002561396617104, 14807844920549353264, 0, 8243115633774890792, 0⟩ : HashSt) := by
    rw [show (3328:Nat) = 3072 + 256 from rfl, iterZ_comp, t12]; decide
  have t14 : iterZ 3584 (hsNew 0) = (⟨3519032818889460623, 15606110633135758062, 0, 16075040822517418399, 0⟩ : HashSt) := by
    rw [show (3584:Nat) = 3328 + 256 from rfl, iterZ_comp, t13]; decide
  have t15 : iterZ 3840 (hsNew 0) = (⟨15153657555834734271, 13943632419346605407, 0, 15138518972195468887, 0⟩ : HashSt) := by
    rw [show (3840:Nat) = 3584 + 256 from rfl, iterZ_comp, t14]; decide
  have t16 : iterZ 4096 (hsNew 0) = (⟨12290169108486606361, 10065685557216102255, 0, 14424723464201758318, 0⟩ : HashSt) := by
    rw [show (4096:Nat) = 3840 + 256 from rfl, iterZ_comp, t15]; decide
  have t17 : iterZ 4352 (hsNew 0) = (⟨18393097634644895024, 4027208563902799668, 0, 14559365549944687621, 0⟩ : HashSt) := by
    rw [show (4352:Nat) = 4096 + 256 from rfl, iterZ_comp, t16]; decide
  have t18 : iterZ 4608 (hsNew 0) = (⟨3094659006537084370, 4941368334683692180, 0, 7406537106646051958, 0⟩ : HashSt) := by
    rw [show (4608:Nat) = 4352 + 256 from rfl, iterZ_comp, t17]; decide
  have t19 : iterZ 4864 (hsNew 0) = (⟨11903799318418829502, 557032099353632699, 0, 5802614210423855144, 0⟩ : HashSt) := by
    rw [show (4864:Nat) = 4608 + 256 from rfl, iterZ_comp, t18]; decide
  have t20 : iterZ 5120 (hsNew 0) = (⟨7500065724650121199, 3161502759636443870, 0, 5017703004642541170, 0⟩ : HashSt) := by
    rw [show (5120:Nat) = 4864 + 256 from rfl, iterZ_comp, t19]; decide
  have t21 : iterZ 5376 (hsNew 0) = (⟨5701595578383848585, 6017543141479079288, 0, 11023466534324898860, 0⟩ : HashSt) := by
    rw [show (5376:Nat) = 5120 + 256 from rfl, iterZ_comp, t20]; decide
  have t22 : iterZ 5632 (hsNew 0) = (⟨8999171588822205555, 15907953768416742369, 0, 17294588416510432711, 0⟩ : HashSt) := by
    rw [show (5632:Nat) = 5376 + 256 from rfl, iterZ_comp, t21]; decide
  have t23 : iterZ 5888 (hsNew 0) = (⟨6867694692890335223, 8324679964331985875, 0, 11152185156329736758, 0⟩ : HashSt) := by
    rw [show (5888:Nat) = 5632 + 256 from rfl, iterZ_comp, t22]; decide
  have t24 : iterZ 6144 (hsNew 0) = (⟨15881096181849432295, 3337824286933969831, 0, 6523704215799642832, 0⟩ : HashSt) := by
    rw [show (6144:Nat) = 5888 + 256 from rfl, iterZ_comp, t23]; decide
  rw [hL, hR, t16, t24]
  decide

/-- Claim C5 (amended): `turbo_hash` samples only files of at least
`2 * CHUNK_SIZE` = 512 KiB (`CHUNK_SIZE` is 256 KiB, not 64 KiB); for
those it hashes first 64 KiB ++ middle 64 KiB at `size/2` ++ last
64 KiB ++ little-endian size, and for every smaller file it equals
`hash_file`. -/
theorem turbo_hash_sampling_threshold (asmOn : Bool) (c : List Nat) :
    (524288 ≤ c.length → turboHash asmOn c = hashBytes asmOn (specTurboCombined c)) ∧
    (c.length < 524288 → turboHash asmOn c = hashFile asmOn c) := by
  constructor
  · intro h
    unfold turboHash specTurboCombined
    rw [if_neg (show ¬ c.length < 2 * CHUNK_SIZE by unfold CHUNK_SIZE; omega)]
    show hashBytes asmOn
        (((List.take (65536 ⊓ c.length) c ++
            (if 65536 * 2 < c.length then
              List.take (65536 ⊓ (c.length - c.length / 2)) (List.drop (c.length / 2) c)
            else [])) ++
          (if 65536 < c.length then List.drop (c.length - 65536) c else [])) ++
          u64le c.length) =
      hashBytes asmOn
        (List.take 65536 c ++ List.take 65536 (List.drop (c.length / 2) c) ++
          List.drop (c.length - 65536) c ++ u64le c.length)
    rw [show (65536:Nat) ⊓ c.length = 65536 by omega,
      show (65536:Nat) ⊓ (c.length - c.length / 2) = 65536 by omega,
      if_pos (show 65536 * 2 < c.length by omega),
      if_pos (show 65536 < c.length by omega)]
  · intro h
    unfold turboHash
    rw [if_pos (show c.length < 2 * CHUNK_SIZE by unfold CHUNK_SIZE; omega)]

/-- Witness for claim C5 (amended) at a 512 KiB all-zero file. -/
theorem turbo_hash_sampling_threshold_witness :
    524288 ≤ (List.replicate 524288 (0:Nat)).length ∧
    turboHash true (List.replicate 524288 0) =
      hashBytes true (specTurboCombined (List.replicate 524288 0)) :=
  ⟨by rw [List.length_replicate],
    (turbo_hash_sampling_threshold true (List.replicate 524288 0)).1
      (by rw [List.length_replicate])⟩

theorem charValidNat (c : Char) :
    c.toNat < 55296 ∨ (57344 ≤ c.toNat ∧ c.toNat < 1114112) := by
  have h := c.valid
  unfold UInt32.isValidChar Nat.isValidChar at h
  rcases h with h | ⟨h1, h2⟩
  · left
    unfold Char.toNat
    exact h
  · right
    exact ⟨h1, h2⟩

theorem utf8DecV_cons (fuel : Nat) (c : Char) (tail : List Nat) :
    utf8DecV (fuel+1) (utf8EncChar c ++ tail) =
      (utf8DecV fuel tail).map (fun cs => c :: cs) := by
  have hv := charValidNat c
  by_cases h1 : c.toNat < 128
  · have he : utf8EncChar c = [c.toNat] := by
      unfold utf8EncChar
      rw [if_pos h1]
    rw [he, List.singleton_append]
    simp only [utf8DecV]
    rw [if_pos h1, Char.ofNat_toNat]
  · by_cases h2 : c.toNat < 2048
    · have he : utf8EncChar c = [192 + c.toNat / 64, 128 + c.toNat % 64] := by
        unfold utf8EncChar
        rw [if_neg h1, if_pos h2]
      have hb : ¬(192 + c.toNat / 64 < 128) := by omega
      have hb' : 194 ≤ 192 + c.toNat / 64 ∧ 192 + c.toNat / 64 ≤ 223 := by omega
      have hc : utf8Cont (128 + c.toNat % 64) = true := by
        unfold utf8Cont
        simp only [decide_eq_true_eq]
        omega
      have hval : (192 + c.toNat / 64 - 192) * 64 + (128 + c.toNat % 64 - 128) = c.toNat := by
        omega
      rw [he]
      simp only [List.append_eq, List.singleton_append, List.cons_append, List.nil_append, utf8DecV, hb, hb', hc, if_false, if_true,
        and_self, ite_true, ite_false]
      rw [hval, Char.ofNat_toNat]
    · by_cases h3 : c.toNat < 65536
      · have he : utf8EncChar c =
            [224 + c.toNat / 4096, 128 + c.toNat / 64 % 64, 128 + c.toNat % 64] := by
          unfold utf8EncChar
          rw [if_neg h1, if_neg h2, if_pos h3]
        have hb : ¬(224 + c.toNat / 4096 < 128) := by omega
        have hb2 : ¬(194 ≤ 224 + c.toNat / 4096 ∧ 224 + c.toNat / 4096 ≤ 223) := by omega
        have hb3 : 224 ≤ 224 + c.toNat / 4096 ∧ 224 + c.toNat / 4096 ≤ 239 := by omega
        have hguard : (if 224 + c.toNat / 4096 = 224 then
              160 ≤ 128 + c.toNat / 64 % 64 ∧ 128 + c.toNat / 64 % 64 < 192
            else if 224 + c.toNat / 4096 = 237 then
              128 ≤ 128 + c.toNat / 64 % 64 ∧ 128 + c.toNat / 64 % 64 < 160
            else utf8Cont (128 + c.toNat / 64 % 64) = true) := by
          split
          · omega
          · split
            · rcases hv with hv | hv
              · omega
              · omega
            · unfold utf8Cont
              simp only [decide_eq_true_eq]
              omega
        have hc2 : utf8Cont (128 + c.toNat % 64) = true := by
          unfold utf8Cont
          simp only [decide_eq_true_eq]
          omega
        have hval : (224 + c.toNat / 4096 - 224) * 4096 +
            (128 + c.toNat / 64 % 64 - 128) * 64 + (128 + c.toNat % 64 - 128) = c.toNat := by
          omega
        rw [he]
        simp only [List.append_eq, List.singleton_append, List.cons_append, List.nil_append, utf8DecV, hb, hb2, hb3, hguard, hc2,
          if_false, if_true, and_self, and_true, ite_true, ite_false]
        rw [hval, Char.ofNat_toNat]
      · have h4 : c.toNat < 1114112 := by
          rcases hv with hv | hv
          · omega
          · omega
        have he : utf8EncChar c = [240 + c.toNat / 262144, 128 + c.toNat / 4096 % 64,
            128 + c.toNat / 64 % 64, 128 + c.toNat % 64] := by
          unfold utf8EncChar
          rw [if_neg h1, if_neg h2, if_neg h3]
        have hb : ¬(240 + c.toNat / 262144 < 128) := by omega
        have hb2 : ¬(194 ≤ 240 + c.toNat / 262144 ∧ 240 + c.toNat / 262144 ≤ 223) := by omega
        have hb3 : ¬(224 ≤ 240 + c.toNat / 262144 ∧ 240 + c.toNat / 262144 ≤ 239) := by omega
        have hb4 : 240 ≤ 240 + c.toNat / 262144 ∧ 240 + c.toNat / 262144 ≤ 244 := by omega
        have hguard : (if 240 + c.toNat / 262144 = 240 then
              144 ≤ 128 + c.toNat / 4096 % 64 ∧ 128 + c.toNat / 4096 % 64 < 192
            else if 240 + c.toNat / 262144 = 244 then
              128 ≤ 128 + c.toNat / 4096 % 64 ∧ 128 + c.toNat / 4096 % 64 < 144
            else utf8Cont (128 + c.toNat / 4096 % 64) = true) := by
          split
          · omega
          · split
            · omega
            · unfold utf8Cont
              simp only [decide_eq_true_eq]
              omega
        have hc2 : utf8Cont (128 + c.toNat / 64 % 64) = true := by
          unfold utf8Cont
          simp only [decide_eq_true_eq]
          omega
        have hc3 : utf8Cont (128 + c.toNat % 64) = true := by
          unfold utf8Cont
          simp only [decide_eq_true_eq]
          omega
        have hval : (240 + c.toNat / 262144 - 240) * 262144 +
            (128 + c.toNat / 4096 % 64 - 128) * 4096 +
            (128 + c.toNat / 64 % 64 - 128) * 64 + (128 + c.toNat % 64 - 128) = c.toNat := by
          omega
        rw [he]
        simp only [List.append_eq, List.singleton_append, List.cons_append, List.nil_append, utf8DecV, hb, hb2, hb3, hb4, hguard,
          hc2, hc3, if_false, if_true, and_self, and_true, ite_true, ite_false]
        rw [hval, Char.ofNat_toNat]


theorem decU32_enc (n : Nat) (rest : List Nat) (h : n < M32) :
    decU32 (encU32 n ++ rest) = some (n, rest) := by
  simp only [encU32, List.cons_append, List.nil_append, decU32, byteAt,
    Option.some.injEq, Prod.mk.injEq]
  refine ⟨?_, trivial⟩
  have e0 : (256:Nat) ^ 0 = 1 := by norm_num
  have e1 : (256:Nat) ^ 1 = 256 := by norm_num
  have e2 : (256:Nat) ^ 2 = 65536 := by norm_num
  have e3 : (256:Nat) ^ 3 = 16777216 := by norm_num
  rw [e0, e1, e2, e3]
  unfold M32 at h
  omega

theorem decU64_enc (n : Nat) (rest : List Nat) (h : n < M64) :
    decU64 (encU64 n ++ rest) = some (n, rest) := by
  simp only [encU64, u64le, List.cons_append, List.nil_append, decU64, byteAt,
    Option.some.injEq, Prod.mk.injEq]
  refine ⟨?_, trivial⟩
  have e0 : (256:Nat) ^ 0 = 1 := by norm_num
  have e1 : (256:Nat) ^ 1 = 256 := by norm_num
  have e2 : (256:Nat) ^ 2 = 65536 := by norm_num
  have e3 : (256:Nat) ^ 3 = 16777216 := by norm_num
  have e4 : (256:Nat) ^ 4 = 4294967296 := by norm_num
  have e5 : (256:Nat) ^ 5 = 1099511627776 := by norm_num
  have e6 : (256:Nat) ^ 6 = 281474976710656 := by norm_num
  have e7 : (256:Nat) ^ 7 = 72057594037927936 := by norm_num
  rw [e0, e1, e2, e3, e4, e5, e6, e7]
  unfold M64 at h
  omega

theorem decBool_enc (b : Bool) (rest : List Nat) :
    decBool (encBool b ++ rest) = some (b, rest) := by
  cases b <;> rfl

theorem decAssetType_enc (t : AssetType) (rest : List Nat) :
    decAssetType (encAssetType t ++ rest) = some (t, rest) := by
  cases t <;> rfl

theorem utf8EncChar_length_pos (c : Char) : 1 ≤ (utf8EncChar c).length := by
  simp only [utf8EncChar]
  split
  · simp
  · split
    · simp
    · split
      · simp
      · simp

theorem utf8Enc_nil : utf8Enc [] = [] := rfl

theorem utf8Enc_cons (c : Char) (cs : List Char) :
    utf8Enc (c :: cs) = utf8EncChar c ++ utf8Enc cs := by
  simp only [utf8Enc, List.map_cons, List.flatten_cons]

theorem utf8DecV_enc : ∀ (cs : List Char) (fuel : Nat),
    (utf8Enc cs).length ≤ fuel → utf8DecV fuel (utf8Enc cs) = some cs := by
  intro cs
  induction cs with
  | nil =>
    intro fuel _
    cases fuel
    · rfl
    · rfl
  | cons c cs ih =>
    intro fuel hfuel
    rw [utf8Enc_cons] at hfuel ⊢
    have hpos := utf8EncChar_length_pos c
    rw [List.length_append] at hfuel
    cases fuel with
    | zero => omega
    | succ f =>
      rw [utf8DecV_cons, ih f (by omega)]
      rfl

theorem decStr_enc (s : String) (rest : List Nat)
    (h : (utf8Enc s.data).length < M64) :
    decStr (encStr s ++ rest) = some (s, rest) := by
  unfold decStr encStr
  rw [List.append_assoc, decU64_enc _ _ h]
  simp only [Option.some_bind]
  rw [if_neg (show ¬((utf8Enc s.data ++ rest).length < (utf8Enc s.data).length) from by
        rw [List.length_append]; omega),
      List.take_left, List.drop_left, utf8DecV_enc s.data _ (le_refl _)]
  rfl

theorem decListN_enc {α : Type} (dec : List Nat → Option (α × List Nat)) (enc : α → List Nat)
    (l : List α) (rest : List Nat)
    (hel : ∀ x ∈ l, ∀ r, dec (enc x ++ r) = some (x, r)) :
    decListN dec l.length ((l.map enc).flatten ++ rest) = some (l, rest) := by
  induction l with
  | nil => rfl
  | cons x xs ih =>
    simp only [List.map_cons, List.flatten_cons, List.length_cons, List.append_assoc, decListN]
    rw [hel x (by simp) _]
    simp only [Option.some_bind]
    rw [ih (fun y hy r => hel y (by simp [hy]) r)]
    rfl

theorem decList_enc {α : Type} (dec : List Nat → Option (α × List Nat)) (enc : α → List Nat)
    (l : List α) (rest : List Nat) (hlen : l.length < M64)
    (hel : ∀ x ∈ l, ∀ r, dec (enc x ++ r) = some (x, r)) :
    decList dec (encList enc l ++ rest) = some (l, rest) := by
  unfold decList encList
  rw [List.append_assoc, decU64_enc _ _ hlen]
  simp only [Option.some_bind]
  exact decListN_enc dec enc l rest hel

theorem digitChar_toNat (d : Nat) : (digitChar d).toNat = 48 + d % 10 := by
  unfold digitChar Char.ofNat Char.toNat
  rw [dif_pos]
  · rfl
  · left
    omega

theorem natDigitsFuel_ne_nil (fuel n : Nat) : natDigitsFuel fuel n ≠ [] := by
  cases fuel with
  | zero => simp [natDigitsFuel]
  | succ f =>
    simp only [natDigitsFuel]
    split
    · simp
    · simp

theorem natDigitsFuel_digits : ∀ (fuel n : Nat) (c : Char), c ∈ natDigitsFuel fuel n →
    48 ≤ c.toNat ∧ c.toNat ≤ 57 := by
  intro fuel
  induction fuel with
  | zero =>
    intro n c hc
    simp only [natDigitsFuel, List.mem_singleton] at hc
    subst hc
    rw [digitChar_toNat]
    omega
  | succ f ih =>
    intro n c hc
    simp only [natDigitsFuel] at hc
    split at hc
    · simp only [List.mem_singleton] at hc
      subst hc
      rw [digitChar_toNat]
      omega
    · rw [List.mem_append, List.mem_singleton] at hc
      rcases hc with hc | hc
      · exact ih _ _ hc
      · subst hc
        rw [digitChar_toNat]
        omega

theorem natDigitsFuel_val : ∀ (fuel n : Nat), n ≤ fuel →
    List.foldl (fun acc c => acc * 10 + (c.toNat - 48)) 0 (natDigitsFuel fuel n) = n := by
  intro fuel
  induction fuel with
  | zero =>
    intro n hn
    have h0 : n = 0 := by omega
    subst h0
    simp only [natDigitsFuel, List.foldl_cons, List.foldl_nil]
    rw [digitChar_toNat]
  | succ f ih =>
    intro n hn
    simp only [natDigitsFuel]
    split
    · simp only [List.foldl_cons, List.foldl_nil]
      rw [digitChar_toNat]
      omega
    · rw [List.foldl_append, ih (n / 10) (by omega)]
      simp only [List.foldl_cons, List.foldl_nil]
      rw [digitChar_toNat]
      omega

theorem parseDigits_natDigits (n : Nat) : parseDigits (natDigits n) = some n := by
  have hcond : natDigitsFuel n n ≠ [] ∧
      (natDigitsFuel n n).all (fun c => decide (48 ≤ c.toNat ∧ c.toNat ≤ 57)) = true := by
    refine ⟨natDigitsFuel_ne_nil n n, ?_⟩
    rw [List.all_eq_true]
    intro c hc
    rw [decide_eq_true_eq]
    exact natDigitsFuel_digits n n c hc
  unfold parseDigits natDigits
  rw [if_pos hcond, natDigitsFuel_val n n (le_refl n)]

theorem natDigitsFuel_length_le : ∀ (fuel k n : Nat), n < 10 ^ k → 1 ≤ k →
    (natDigitsFuel fuel n).length ≤ k := by
  intro fuel
  induction fuel with
  | zero =>
    intro k n _ hk
    simpa [natDigitsFuel] using hk
  | succ f ih =>
    intro k n hn hk
    simp only [natDigitsFuel]
    split
    · simpa using hk
    · rename_i hge
      obtain ⟨k', rfl⟩ : ∃ k', k = k' + 1 := ⟨k - 1, by omega⟩
      have hk' : 1 ≤ k' := by
        by_contra hc
        have hz : k' = 0 := by omega
        subst hz
        have h10 : (10:Nat) ^ (0 + 1) = 10 := by norm_num
        rw [h10] at hn
        omega
      have hn' : n / 10 < 10 ^ k' := by
        rw [Nat.div_lt_iff_lt_mul (by norm_num)]
        calc n < 10 ^ (k' + 1) := hn
          _ = 10 ^ k' * 10 := by ring
      rw [List.length_append]
      have hrec := ih k' (n / 10) hn' hk'
      simp only [List.length_cons, List.length_nil]
      omega

theorem utf8Enc_ascii_length : ∀ (cs : List Char), (∀ c ∈ cs, c.toNat < 128) →
    (utf8Enc cs).length = cs.length := by
  intro cs
  induction cs with
  | nil =>
    intro _
    rfl
  | cons c cs ih =>
    intro h
    rw [utf8Enc_cons, List.length_append, List.length_cons,
      ih (fun x hx => h x (by simp [hx]))]
    have he : utf8EncChar c = [c.toNat] := by
      unfold utf8EncChar
      rw [if_pos (h c (by simp))]
    rw [he, List.length_singleton]
    omega

theorem natDigits_ascii (n : Nat) : ∀ c ∈ natDigits n, c.toNat < 128 := by
  intro c hc
  have hd := natDigitsFuel_digits n n c hc
  omega

theorem decTimestamp_enc (t : Nat) (rest : List Nat) (h : t < M64) :
    decTimestamp (encTimestamp t ++ rest) = some (t, rest) := by
  unfold decTimestamp encTimestamp
  have hlen : (utf8Enc (String.mk (natDigits t)).data).length < M64 := by
    show (utf8Enc (natDigits t)).length < M64
    rw [utf8Enc_ascii_length _ (natDigits_ascii t)]
    have h20 : (natDigits t).length ≤ 20 := by
      refine natDigitsFuel_length_le t 20 t ?_ (by norm_num)
      have hm : M64 < 10 ^ 20 := by
        unfold M64
        norm_num
      unfold M64 at h
      calc t < 18446744073709551616 := h
        _ < 10 ^ 20 := by norm_num
    unfold M64
    omega
  rw [decStr_enc _ _ hlen]
  simp only [Option.some_bind]
  show Option.map (fun v => (v, rest)) (parseDigits (natDigits t)) = some (t, rest)
  rw [parseDigits_natDigits]
  rfl

theorem wfStr_lt (s : String) (h : wfStr s = true) : (utf8Enc s.data).length < M64 := by
  unfold wfStr at h
  exact of_decide_eq_true h

theorem decCachedAsset_enc (a : CachedAsset) (rest : List Nat)
    (h : wfCachedAsset a = true) :
    decCachedAsset (encCachedAsset a ++ rest) = some (a, rest) := by
  simp only [wfCachedAsset, Bool.and_eq_true, decide_eq_true_eq] at h
  obtain ⟨⟨⟨h1, h2⟩, h3⟩, h4⟩ := h
  unfold decCachedAsset encCachedAsset
  simp only [List.append_assoc]
  rw [decStr_enc _ _ (wfStr_lt _ h1)]
  simp only [Option.some_bind]
  rw [decAssetType_enc]
  simp only [Option.some_bind]
  rw [decU64_enc _ _ h2]
  simp only [Option.some_bind]
  rw [decU64_enc _ _ h3]
  simp only [Option.some_bind]
  rw [decU32_enc _ _ h4]
  simp only [Option.some_bind]
  rw [decBool_enc]
  rfl

theorem decShaderVariant_enc (v : ShaderVariant) (rest : List Nat)
    (h : wfShaderVariant v = true) :
    decShaderVariant (encShaderVariant v ++ rest) = some (v, rest) := by
  simp only [wfShaderVariant, Bool.and_eq_true, decide_eq_true_eq] at h
  obtain ⟨⟨h1, h2⟩, h3⟩ := h
  unfold decShaderVariant encShaderVariant
  simp only [List.append_assoc]
  rw [decStr_enc _ _ (wfStr_lt _ h1)]
  simp only [Option.some_bind]
  rw [decU64_enc _ _ h2]
  simp only [Option.some_bind]
  rw [decStr_enc _ _ (wfStr_lt _ h3)]
  rfl

theorem decCache_enc (m : StartupCache) (rest : List Nat) (h : wfCache m = true) :
    decCache (encCache m ++ rest) = some (m, rest) := by
  simp only [wfCache, Bool.and_eq_true, decide_eq_true_eq] at h
  obtain ⟨⟨⟨⟨⟨⟨⟨⟨⟨h1, h2⟩, h3⟩, h4⟩, h5⟩, h6⟩, h7⟩, h8⟩, h9⟩, h10⟩ := h
  unfold decCache encCache
  simp only [List.append_assoc]
  rw [decStr_enc _ _ (wfStr_lt _ h1)]
  simp only [Option.some_bind]
  rw [decTimestamp_enc _ _ h2]
  simp only [Option.some_bind]
  rw [decStr_enc _ _ (wfStr_lt _ h3)]
  simp only [Option.some_bind]
  rw [decStr_enc _ _ (wfStr_lt _ h4)]
  simp only [Option.some_bind]
  rw [decList_enc _ _ _ _ h6 (fun x hx r => decCachedAsset_enc x r (by
        rw [List.all_eq_true] at h5
        exact h5 x hx))]
  simp only [Option.some_bind]
  rw [decList_enc _ _ _ _ h8 (fun x hx r => decStr_enc x r (wfStr_lt x (by
        rw [List.all_eq_true] at h7
        exact h7 x hx)))]
  simp only [Option.some_bind]
  rw [decList_enc _ _ _ _ h10 (fun x hx r => decShaderVariant_enc x r (by
        rw [List.all_eq_true] at h9
        exact h9 x hx))]
  rfl

/-- Claim C8 (confirmed): for every Rust-representable manifest value
`m` (strings, hashes, sizes and sequence lengths fit their machine
types), `StartupCache::load` applied to the bytes `StartupCache::save`
writes returns a manifest equal to `m` field-for-field.  The `bincode`
and chrono serialization formats are dependency crates, modelled from
their documented behaviour. -/
theorem save_load_round_trip (m : StartupCache) (h : wfCache m = true) :
    loadCache (saveCache m) = Except.ok m := by
  unfold loadCache saveCache
  rw [if_neg (show ¬((cacheMagic ++ encCache m).length < 8) from by
        rw [List.length_append, show cacheMagic.length = 8 from rfl]
        omega)]
  rw [List.take_left' (show cacheMagic.length = 8 from rfl),
      List.drop_left' (show cacheMagic.length = 8 from rfl)]
  rw [if_neg (show ¬(cacheMagic ≠ cacheMagic) from by simp)]
  rw [show encCache m = encCache m ++ [] from (List.append_nil _).symm]
  rw [decCache_enc m [] h]

/-- Witness for claim C8 at a concrete manifest: the small fixture
manifest is well-formed and loading its saved bytes returns it. -/
theorem save_load_round_trip_witness :
    wfCache rtCache = true ∧ loadCache (saveCache rtCache) = Except.ok rtCache :=
  ⟨by decide, save_load_round_trip rtCache (by decide)⟩

theorem reachIdx_trans {g : DepGraph} {a b c : Nat}
    (h1 : ReachIdx g a b) (h2 : ReachIdx g b c) : ReachIdx g a c := by
  induction h2 with
  | refl => exact h1
  | tail _ e ih => exact .tail ih e

theorem reachIdx_head {g : DepGraph} {a b c : Nat}
    (e : hasEdge g a b) (h : ReachIdx g b c) : ReachIdx g a c :=
  reachIdx_trans (.tail (.refl a) e) h

theorem mem_neighborsOut {g : DepGraph} {j k : Nat} :
    k ∈ neighborsOut g j ↔ hasEdge g j k := by
  unfold neighborsOut hasEdge
  rw [List.mem_reverse, List.mem_map]
  constructor
  · rintro ⟨e, he, rfl⟩
    rw [List.mem_filter] at he
    exact ⟨e, he.1, by simpa using he.2, rfl⟩
  · rintro ⟨e, he, hsrc, htgt⟩
    exact ⟨e, List.mem_filter.mpr ⟨he, by simpa using hsrc⟩, htgt⟩

theorem dfsVisit_vis_subset (g : DepGraph) :
    ∀ (fuel : Nat) (stk vis : List Nat), vis ⊆ dfsVisit g fuel stk vis := by
  intro fuel
  induction fuel with
  | zero =>
    intro stk vis
    cases stk <;> exact fun x hx => hx
  | succ f ih =>
    intro stk vis
    cases stk with
    | nil => exact fun x hx => hx
    | cons n stk =>
      simp only [dfsVisit]
      split
      · exact ih stk vis
      · intro x hx
        exact ih _ (n :: vis) (List.mem_cons_of_mem n hx)

theorem dfsVisit_sound (g : DepGraph) :
    ∀ (fuel : Nat) (stk vis : List Nat) (x : Nat), x ∈ dfsVisit g fuel stk vis →
      x ∈ vis ∨ ∃ s ∈ stk, ReachIdx g s x := by
  intro fuel
  induction fuel with
  | zero =>
    intro stk vis x hx
    cases stk <;> exact Or.inl hx
  | succ f ih =>
    intro stk vis x hx
    cases stk with
    | nil => exact Or.inl hx
    | cons n stk =>
      simp only [dfsVisit] at hx
      by_cases hn : n ∈ vis
      · rw [if_pos hn] at hx
        rcases ih stk vis x hx with h | ⟨s, hs, hr⟩
        · exact Or.inl h
        · exact Or.inr ⟨s, List.mem_cons_of_mem n hs, hr⟩
      · rw [if_neg hn] at hx
        rcases ih _ _ x hx with h | ⟨s, hs, hr⟩
        · rcases List.mem_cons.mp h with rfl | h
          · exact Or.inr ⟨x, List.mem_cons_self x stk, .refl x⟩
          · exact Or.inl h
        · rw [List.mem_append] at hs
          rcases hs with hs | hs
          · rw [List.mem_reverse, List.mem_filter] at hs
            have he : hasEdge g n s := mem_neighborsOut.mp hs.1
            exact Or.inr ⟨n, List.mem_cons_self _ _, reachIdx_head he hr⟩
          · exact Or.inr ⟨s, List.mem_cons_of_mem n hs, hr⟩

theorem unvis_cons {g : DepGraph} {n : Nat} {vis : List Nat}
    (hn : n < g.nodes.length) (hnv : n ∉ vis) :
    unvis g vis = unvis g (n :: vis) + 1 := by
  unfold unvis
  have hmem : n ∈ (Finset.range g.nodes.length).filter (fun j => j ∉ vis) := by
    simp [Finset.mem_filter, Finset.mem_range, hn, hnv]
  have hsub : (Finset.range g.nodes.length).filter (fun j => j ∉ n :: vis) =
      ((Finset.range g.nodes.length).filter (fun j => j ∉ vis)).erase n := by
    ext x
    simp only [Finset.mem_filter, Finset.mem_erase, Finset.mem_range, List.mem_cons]
    tauto
  have hpos : 0 < ((Finset.range g.nodes.length).filter (fun j => j ∉ vis)).card :=
    Finset.card_pos.mpr ⟨n, hmem⟩
  rw [hsub, Finset.card_erase_of_mem hmem]
  omega

theorem dfsVisit_suff (g : DepGraph)
    (hedges : ∀ e ∈ g.edges, e.src < g.nodes.length ∧ e.tgt < g.nodes.length) :
    ∀ (fuel : Nat) (stk vis : List Nat),
      (∀ x ∈ stk, x < g.nodes.length) →
      stk.length + unvis g vis * (g.edges.length + 1) ≤ fuel →
      (∀ x ∈ stk, x ∈ dfsVisit g fuel stk vis) ∧
      (∀ j ∈ dfsVisit g fuel stk vis, j ∉ vis →
        ∀ k, hasEdge g j k → k ∈ dfsVisit g fuel stk vis) := by
  intro fuel
  induction fuel with
  | zero =>
    intro stk vis hstk hfuel
    have hs : stk = [] := List.length_eq_zero.mp (by omega)
    subst hs
    constructor
    · intro x hx
      cases hx
    · intro j hj hjv k _
      exact absurd hj hjv
  | succ f ih =>
    intro stk vis hstk hfuel
    cases stk with
    | nil =>
      constructor
      · intro x hx
        cases hx
      · intro j hj hjv k _
        exact absurd hj hjv
    | cons n stk =>
      by_cases hn : n ∈ vis
      · have hres : dfsVisit g (f+1) (n :: stk) vis = dfsVisit g f stk vis := by
          simp only [dfsVisit]
          rw [if_pos hn]
        have hf2 : stk.length + unvis g vis * (g.edges.length + 1) ≤ f := by
          simp only [List.length_cons] at hfuel
          omega
        obtain ⟨h1, h2⟩ := ih stk vis (fun x hx => hstk x (List.mem_cons_of_mem n hx)) hf2
        rw [hres]
        constructor
        · intro x hx
          rcases List.mem_cons.mp hx with rfl | hx
          · exact dfsVisit_vis_subset g f stk vis hn
          · exact h1 x hx
        · exact h2
      · have hnlen : n < g.nodes.length := hstk n (List.mem_cons_self n stk)
        have hres : dfsVisit g (f+1) (n :: stk) vis =
            dfsVisit g f
              (((neighborsOut g n).filter (fun s => decide (s ∉ n :: vis))).reverse ++ stk)
              (n :: vis) := by
          simp only [dfsVisit]
          rw [if_neg hn]
        have hpushlen :
            (((neighborsOut g n).filter (fun s => decide (s ∉ n :: vis))).reverse).length ≤
              g.edges.length := by
          rw [List.length_reverse]
          calc ((neighborsOut g n).filter (fun s => decide (s ∉ n :: vis))).length
              ≤ (neighborsOut g n).length := List.length_filter_le _ _
            _ ≤ g.edges.length := by
              unfold neighborsOut
              rw [List.length_reverse, List.length_map]
              exact List.length_filter_le _ _
        have huv : unvis g vis = unvis g (n :: vis) + 1 := unvis_cons hnlen hn
        have hexp : unvis g vis * (g.edges.length + 1) =
            unvis g (n :: vis) * (g.edges.length + 1) + (g.edges.length + 1) := by
          rw [huv, Nat.succ_mul]
        have hf2 : (((neighborsOut g n).filter (fun s => decide (s ∉ n :: vis))).reverse ++
              stk).length + unvis g (n :: vis) * (g.edges.length + 1) ≤ f := by
          rw [List.length_append]
          simp only [List.length_cons] at hfuel
          omega
        have hstk2 : ∀ x ∈ ((neighborsOut g n).filter
              (fun s => decide (s ∉ n :: vis))).reverse ++ stk, x < g.nodes.length := by
          intro x hx
          rcases List.mem_append.mp hx with hx | hx
          · rw [List.mem_reverse, List.mem_filter] at hx
            obtain ⟨e, he, _, htgt⟩ := mem_neighborsOut.mp hx.1
            rw [← htgt]
            exact (hedges e he).2
          · exact hstk x (List.mem_cons_of_mem n hx)
        obtain ⟨h1, h2⟩ := ih _ _ hstk2 hf2
        rw [hres]
        constructor
        · intro x hx
          rcases List.mem_cons.mp hx with rfl | hx
          · exact dfsVisit_vis_subset g f _ (x :: vis) (List.mem_cons_self x vis)
          · exact h1 x (List.mem_append.mpr (Or.inr hx))
        · intro j hj hjv k hk
          by_cases hjn : j = n
          · subst hjn
            have hkn : k ∈ neighborsOut g j := mem_neighborsOut.mpr hk
            by_cases hkv : k ∈ j :: vis
            · exact dfsVisit_vis_subset g f _ (j :: vis) hkv
            · refine h1 k (List.mem_append.mpr (Or.inl ?_))
              rw [List.mem_reverse, List.mem_filter]
              exact ⟨hkn, by simpa using hkv⟩
          · refine h2 j hj ?_ k hk
            intro hc
            rcases List.mem_cons.mp hc with h | h
            · exact hjn h
            · exact hjv h

theorem dfs_complete (g : DepGraph)
    (hedges : ∀ e ∈ g.edges, e.src < g.nodes.length ∧ e.tgt < g.nodes.length)
    {s j : Nat} (hs : s < g.nodes.length)
    (hr : ReachIdx g s j) : j ∈ dfsVisit g (dfsFuel g) [s] [] := by
  have huv : unvis g [] = g.nodes.length := by
    unfold unvis
    simp
  have hfuel : ([s] : List Nat).length + unvis g [] * (g.edges.length + 1) ≤ dfsFuel g := by
    rw [huv]
    unfold dfsFuel
    have hm : g.nodes.length * (g.edges.length + 1) ≤
        (g.nodes.length + 1) * (g.edges.length + 2) :=
      Nat.mul_le_mul (Nat.le_succ _) (by omega)
    simp only [List.length_cons, List.length_nil]
    omega
  have hstk : ∀ x ∈ ([s] : List Nat), x < g.nodes.length := by
    intro x hx
    rcases List.mem_singleton.mp hx with rfl
    exact hs
  obtain ⟨h1, h2⟩ := dfsVisit_suff g hedges (dfsFuel g) [s] [] hstk hfuel
  induction hr with
  | refl => exact h1 s (List.mem_singleton.mpr rfl)
  | tail _ e ihr => exact h2 _ ihr (by simp) _ e

theorem dfsVisit_congr (g1 g2 : DepGraph) (he : g1.edges = g2.edges) :
    ∀ (fuel : Nat) (stk vis : List Nat), dfsVisit g1 fuel stk vis = dfsVisit g2 fuel stk vis := by
  have hn : ∀ i, neighborsOut g1 i = neighborsOut g2 i := by
    intro i
    unfold neighborsOut
    rw [he]
  intro fuel
  induction fuel with
  | zero =>
    intro stk vis
    cases stk <;> rfl
  | succ f ih =>
    intro stk vis
    cases stk with
    | nil => rfl
    | cons n stk =>
      simp only [dfsVisit, hn]
      split
      · exact ih stk vis
      · exact ih _ _

theorem mem_enum_spec {α : Type} {l : List α} {p : Nat × α} (h : p ∈ l.enum) :
    ∃ hlt : p.1 < l.length, p.2 = l[p.1] := by
  rw [List.mem_iff_getElem] at h
  obtain ⟨i, hi, heq⟩ := h
  have hlen : i < l.length := by simpa [List.enum_length] using hi
  rw [List.getElem_enum] at heq
  subst heq
  exact ⟨hlen, rfl⟩

theorem enum_mem_of_lt {α : Type} {l : List α} {j : Nat} (h : j < l.length) :
    (j, l[j]) ∈ l.enum := by
  rw [List.mem_iff_getElem]
  exact ⟨j, by simpa [List.enum_length] using h, List.getElem_enum _ _ _⟩

theorem nodeAt_eq_getElem (g : DepGraph) (i : Nat) (h : i < g.nodes.length) :
    nodeAt g i = g.nodes[i] := by
  unfold nodeAt
  exact List.getD_eq_getElem g.nodes default h

theorem nodeAt_mem (g : DepGraph) (i : Nat) (h : i < g.nodes.length) :
    nodeAt g i ∈ g.nodes := by
  rw [nodeAt_eq_getElem g i h]
  exact List.getElem_mem h

theorem markCritical_edges (g : DepGraph) (i : Nat) : (markCritical g i).edges = g.edges := rfl

theorem markCritical_path (g : DepGraph) (i : Nat) :
    (markCritical g i).pathToNode = g.pathToNode := rfl

theorem markCritical_length (g : DepGraph) (i : Nat) :
    (markCritical g i).nodes.length = g.nodes.length := by
  simp only [markCritical]
  rw [List.length_map, List.enum_length]

theorem markCritical_nodeAt (g : DepGraph) (i j : Nat) (h : j < g.nodes.length) :
    nodeAt (markCritical g i) j =
      (if j = i ∨ j ∈ dfsVisit g (dfsFuel g) [i] []
       then { nodeAt g j with is_startup_critical := true } else nodeAt g j) := by
  have hlen : j < ((markCritical g i).nodes).length := by
    rw [markCritical_length]
    exact h
  rw [nodeAt_eq_getElem _ _ hlen, nodeAt_eq_getElem _ _ h]
  simp only [markCritical]
  rw [List.getElem_map, List.getElem_enum]

theorem markFold (ss : List Nat) : ∀ (g : DepGraph),
    ((ss.foldl markCritical g).edges = g.edges ∧
     (ss.foldl markCritical g).pathToNode = g.pathToNode ∧
     (ss.foldl markCritical g).nodes.length = g.nodes.length) ∧
    ∀ j, j < g.nodes.length →
      nodeAt (ss.foldl markCritical g) j =
        { nodeAt g j with is_startup_critical :=
            ((nodeAt g j).is_startup_critical ||
             ss.any (fun s => decide (j = s ∨ j ∈ dfsVisit g (dfsFuel g) [s] []))) } := by
  induction ss with
  | nil =>
    intro g
    refine ⟨⟨rfl, rfl, rfl⟩, ?_⟩
    intro j hj
    simp
  | cons s0 ss ih =>
    intro g
    simp only [List.foldl_cons]
    obtain ⟨⟨he, hp, hl⟩, hnode⟩ := ih (markCritical g s0)
    refine ⟨⟨by rw [he, markCritical_edges], by rw [hp, markCritical_path],
      by rw [hl, markCritical_length]⟩, ?_⟩
    intro j hj
    have hdfs : ∀ s : Nat, dfsVisit (markCritical g s0) (dfsFuel (markCritical g s0)) [s] [] =
        dfsVisit g (dfsFuel g) [s] [] := by
      intro s
      rw [dfsVisit_congr (markCritical g s0) g (markCritical_edges g s0),
          show dfsFuel (markCritical g s0) = dfsFuel g from by
            unfold dfsFuel
            rw [markCritical_length, markCritical_edges]]
    rw [hnode j (by rw [markCritical_length]; exact hj),
        markCritical_nodeAt g s0 j hj]
    simp only [hdfs]
    by_cases h0 : j = s0 ∨ j ∈ dfsVisit g (dfsFuel g) [s0] []
    · rw [if_pos h0]
      simp only [List.any_cons, decide_eq_true h0]
      simp
    · rw [if_neg h0]
      simp only [List.any_cons, decide_eq_false h0]
      simp

theorem mem_seedIdxs (g : DepGraph) (s : Nat) :
    s ∈ seedIdxs g ↔ s < g.nodes.length ∧ isSeedNode (nodeAt g s) = true := by
  unfold seedIdxs
  rw [List.mem_map]
  constructor
  · rintro ⟨p, hp, rfl⟩
    rw [List.mem_filter] at hp
    obtain ⟨hlt, hval⟩ := mem_enum_spec hp.1
    refine ⟨hlt, ?_⟩
    rw [nodeAt_eq_getElem _ _ hlt, ← hval]
    exact hp.2
  · rintro ⟨hlt, hseed⟩
    refine ⟨(s, g.nodes[s]), List.mem_filter.mpr ⟨enum_mem_of_lt hlt, ?_⟩, rfl⟩
    rw [← nodeAt_eq_getElem _ _ hlt]
    exact hseed

theorem removeNodePG_nodes (g : DepGraph) (i : Nat) (hi : i < g.nodes.length) :
    (removeNodePG g i).nodes =
      (g.nodes.set i (g.nodes.getD (g.nodes.length - 1) default)).dropLast := by
  simp only [removeNodePG]
  rw [if_pos hi]

theorem removeNodePG_edges_eq (g : DepGraph) (i : Nat) (hi : i < g.nodes.length) :
    (removeNodePG g i).edges =
      (g.edges.filter (fun e => ¬(e.src = i ∨ e.tgt = i))).map
        (fun e => { e with
          src := if e.src = g.nodes.length - 1 then i else e.src,
          tgt := if e.tgt = g.nodes.length - 1 then i else e.tgt }) := by
  simp only [removeNodePG]
  rw [if_pos hi]

theorem removeNodePG_length (g : DepGraph) (i : Nat) (hi : i < g.nodes.length) :
    (removeNodePG g i).nodes.length = g.nodes.length - 1 := by
  rw [removeNodePG_nodes g i hi, List.length_dropLast, List.length_set]

theorem removeNodePG_nodeAt (g : DepGraph) (i : Nat) (hi : i < g.nodes.length)
    (j : Nat) (hj : j < g.nodes.length - 1) :
    nodeAt (removeNodePG g i) j = nodeAt g (if j = i then g.nodes.length - 1 else j) := by
  have hlen : j < (removeNodePG g i).nodes.length := by
    rw [removeNodePG_length g i hi]
    exact hj
  rw [nodeAt_eq_getElem _ _ hlen]
  have hlen2 : j < ((g.nodes.set i (g.nodes.getD (g.nodes.length - 1) default)).dropLast).length := by
    rw [List.length_dropLast, List.length_set]
    exact hj
  have h1 : (removeNodePG g i).nodes[j] =
      ((g.nodes.set i (g.nodes.getD (g.nodes.length - 1) default)).dropLast)[j] :=
    List.getElem_of_eq (removeNodePG_nodes g i hi) _
  rw [h1, List.getElem_dropLast, List.getElem_set]
  by_cases hji : j = i
  · rw [if_pos (hji.symm), if_pos hji]
    rfl
  · rw [if_neg (fun h => hji h.symm), if_neg hji,
      nodeAt_eq_getElem g j (by omega)]

theorem removeNodePG_mem (g : DepGraph) (i : Nat) :
    ∀ nd ∈ (removeNodePG g i).nodes, nd ∈ g.nodes := by
  intro nd hnd
  by_cases hi : i < g.nodes.length
  · rw [removeNodePG_nodes g i hi] at hnd
    have h1 : nd ∈ g.nodes.set i (g.nodes.getD (g.nodes.length - 1) default) :=
      (List.dropLast_sublist _).subset hnd
    rcases List.mem_or_eq_of_mem_set h1 with h | h
    · exact h
    · rw [h, show g.nodes.getD (g.nodes.length - 1) default =
          nodeAt g (g.nodes.length - 1) from rfl]
      exact nodeAt_mem g _ (by omega)
  · rw [show removeNodePG g i = g from by
        simp only [removeNodePG]
        rw [if_neg hi]] at hnd
    exact hnd

theorem removeNodePG_slot (g : DepGraph) (i x : Nat) (hi : i < g.nodes.length)
    (hx : x < g.nodes.length) (hxi : x ≠ i) :
    (if x = g.nodes.length - 1 then i else x) < g.nodes.length - 1 ∧
    nodeAt (removeNodePG g i) (if x = g.nodes.length - 1 then i else x) = nodeAt g x := by
  by_cases hlast : x = g.nodes.length - 1
  · rw [if_pos hlast]
    have hil : i < g.nodes.length - 1 := by omega
    refine ⟨hil, ?_⟩
    rw [removeNodePG_nodeAt g i hi i hil, if_pos rfl, ← hlast]
  · rw [if_neg hlast]
    have hxl : x < g.nodes.length - 1 := by omega
    refine ⟨hxl, ?_⟩
    rw [removeNodePG_nodeAt g i hi x hxl, if_neg hxi]

theorem removeNodePG_edge (g : DepGraph) (i : Nat) (hi : i < g.nodes.length)
    (hwf : ∀ e ∈ g.edges, e.src < g.nodes.length ∧ e.tgt < g.nodes.length) :
    ∀ e2 ∈ (removeNodePG g i).edges, ∃ e ∈ g.edges,
      e2.data = e.data ∧
      e2.src < (removeNodePG g i).nodes.length ∧
      e2.tgt < (removeNodePG g i).nodes.length ∧
      nodeAt (removeNodePG g i) e2.src = nodeAt g e.src ∧
      nodeAt (removeNodePG g i) e2.tgt = nodeAt g e.tgt := by
  intro e2 he2
  rw [removeNodePG_edges_eq g i hi, List.mem_map] at he2
  obtain ⟨e, hef, heq⟩ := he2
  rw [List.mem_filter] at hef
  obtain ⟨he, hcond⟩ := hef
  have hnot : ¬(e.src = i ∨ e.tgt = i) := by simpa using hcond
  push_neg at hnot
  obtain ⟨hsrc_ne, htgt_ne⟩ := hnot
  obtain ⟨hsw, htw⟩ := hwf e he
  obtain ⟨hs1, hs2⟩ := removeNodePG_slot g i e.src hi hsw hsrc_ne
  obtain ⟨ht1, ht2⟩ := removeNodePG_slot g i e.tgt hi htw htgt_ne
  subst heq
  refine ⟨e, he, rfl, ?_, ?_, hs2, ht2⟩
  · rw [removeNodePG_length g i hi]
    exact hs1
  · rw [removeNodePG_length g i hi]
    exact ht1

theorem removeFold_mem : ∀ (ts : List Nat) (g : DepGraph),
    ∀ nd ∈ (ts.foldl removeNodePG g).nodes, nd ∈ g.nodes := by
  intro ts
  induction ts with
  | nil =>
    intro g nd h
    exact h
  | cons t ts ih =>
    intro g nd h
    exact removeNodePG_mem g t nd (ih (removeNodePG g t) nd h)

theorem removeFold_survive : ∀ (ts : List Nat) (g : DepGraph),
    List.Pairwise (fun a b => b < a) ts →
    (∀ t ∈ ts, t < g.nodes.length) →
    ((ts.foldl removeNodePG g).nodes.length = g.nodes.length - ts.length) ∧
    (∀ j, j < g.nodes.length → j ∉ ts →
      ∃ j2, j2 < (ts.foldl removeNodePG g).nodes.length ∧
        nodeAt (ts.foldl removeNodePG g) j2 = nodeAt g j) := by
  intro ts
  induction ts with
  | nil =>
    intro g _ _
    refine ⟨by simp, ?_⟩
    intro j hj _
    exact ⟨j, by simpa using hj, rfl⟩
  | cons t ts ih =>
    intro g hpw hval
    simp only [List.foldl_cons, List.length_cons]
    have ht : t < g.nodes.length := hval t (List.mem_cons_self _ _)
    have hts : ∀ x ∈ ts, x < t := (List.pairwise_cons.mp hpw).1
    have hval2 : ∀ x ∈ ts, x < (removeNodePG g t).nodes.length := by
      intro x hx
      rw [removeNodePG_length g t ht]
      have := hts x hx
      omega
    obtain ⟨hlen, hsurv⟩ := ih (removeNodePG g t) (List.pairwise_cons.mp hpw).2 hval2
    constructor
    · rw [hlen, removeNodePG_length g t ht]
      omega
    · intro j hj hjts
      have hjt : j ≠ t := fun h => hjts (h ▸ List.mem_cons_self _ _)
      obtain ⟨hr1, hr2⟩ := removeNodePG_slot g t j ht hj hjt
      have hrts : (if j = g.nodes.length - 1 then t else j) ∉ ts := by
        split
        · intro hc
          exact absurd (hts t hc) (lt_irrefl t)
        · intro hc
          exact hjts (List.mem_cons_of_mem _ hc)
      have hrlen : (if j = g.nodes.length - 1 then t else j) <
          (removeNodePG g t).nodes.length := by
        rw [removeNodePG_length g t ht]
        exact hr1
      obtain ⟨j2, hj21, hj22⟩ := hsurv _ hrlen hrts
      exact ⟨j2, hj21, by rw [hj22, hr2]⟩

theorem removeFold_critical : ∀ (ts : List Nat) (g : DepGraph),
    List.Pairwise (fun a b => b < a) ts →
    (∀ t ∈ ts, t < g.nodes.length) →
    (∀ j, j < g.nodes.length →
      (nodeAt g j).is_startup_critical = true ∨ j ∈ ts) →
    ∀ j, j < (ts.foldl removeNodePG g).nodes.length →
      (nodeAt (ts.foldl removeNodePG g) j).is_startup_critical = true := by
  intro ts
  induction ts with
  | nil =>
    intro g _ _ hcrit j hj
    rcases hcrit j (by simpa using hj) with h | h
    · exact h
    · exact absurd h (List.not_mem_nil j)
  | cons t ts ih =>
    intro g hpw hval hcrit
    simp only [List.foldl_cons]
    have ht : t < g.nodes.length := hval t (List.mem_cons_self _ _)
    have hts : ∀ x ∈ ts, x < t := (List.pairwise_cons.mp hpw).1
    have hval2 : ∀ x ∈ ts, x < (removeNodePG g t).nodes.length := by
      intro x hx
      rw [removeNodePG_length g t ht]
      have := hts x hx
      omega
    refine ih (removeNodePG g t) (List.pairwise_cons.mp hpw).2 hval2 ?_
    intro j hj
    rw [removeNodePG_length g t ht] at hj
    rw [removeNodePG_nodeAt g t ht j hj]
    by_cases hji : j = t
    · rw [if_pos hji]
      rcases hcrit (g.nodes.length - 1) (by omega) with h | h
      · exact Or.inl h
      · exfalso
        rcases List.mem_cons.mp h with h | h
        · omega
        · have := hts _ h
          omega
    · rw [if_neg hji]
      rcases hcrit j (by omega) with h | h
      · exact Or.inl h
      · rcases List.mem_cons.mp h with h | h
        · exact absurd h hji
        · exact Or.inr h

theorem removeFold_edges : ∀ (ts : List Nat) (g : DepGraph),
    List.Pairwise (fun a b => b < a) ts →
    (∀ t ∈ ts, t < g.nodes.length) →
    (∀ e ∈ g.edges, e.src < g.nodes.length ∧ e.tgt < g.nodes.length) →
    ∀ e2 ∈ (ts.foldl removeNodePG g).edges, ∃ e ∈ g.edges,
      e2.data = e.data ∧
      e2.src < (ts.foldl removeNodePG g).nodes.length ∧
      e2.tgt < (ts.foldl removeNodePG g).nodes.length ∧
      nodeAt (ts.foldl removeNodePG g) e2.src = nodeAt g e.src ∧
      nodeAt (ts.foldl removeNodePG g) e2.tgt = nodeAt g e.tgt := by
  intro ts
  induction ts with
  | nil =>
    intro g _ _ hwf e2 he2
    exact ⟨e2, he2, rfl, (hwf e2 he2).1, (hwf e2 he2).2, rfl, rfl⟩
  | cons t ts ih =>
    intro g hpw hval hwf
    simp only [List.foldl_cons]
    have ht : t < g.nodes.length := hval t (List.mem_cons_self _ _)
    have hts : ∀ x ∈ ts, x < t := (List.pairwise_cons.mp hpw).1
    have hval2 : ∀ x ∈ ts, x < (removeNodePG g t).nodes.length := by
      intro x hx
      rw [removeNodePG_length g t ht]
      have := hts x hx
      omega
    have hwf2 : ∀ e ∈ (removeNodePG g t).edges,
        e.src < (removeNodePG g t).nodes.length ∧
        e.tgt < (removeNodePG g t).nodes.length := by
      intro e he
      obtain ⟨e0, _, _, h1, h2, _, _⟩ := removeNodePG_edge g t ht hwf e he
      exact ⟨h1, h2⟩
    intro e2 he2
    obtain ⟨e1, he1, hd1, hs1, ht1, hns1, hnt1⟩ :=
      ih (removeNodePG g t) (List.pairwise_cons.mp hpw).2 hval2 hwf2 e2 he2
    obtain ⟨e0, he0, hd0, _, _, hns0, hnt0⟩ := removeNodePG_edge g t ht hwf e1 he1
    exact ⟨e0, he0, by rw [hd1, hd0], hs1, ht1, by rw [hns1, hns0], by rw [hnt1, hnt0]⟩

theorem marked_crit_iff (g : DepGraph)
    (hflags : ∀ nd ∈ g.nodes, nd.is_startup_critical = false)
    (hedges : ∀ e ∈ g.edges, e.src < g.nodes.length ∧ e.tgt < g.nodes.length)
    (j : Nat) (hj : j < g.nodes.length) :
    (nodeAt ((seedIdxs g).foldl markCritical g) j).is_startup_critical = true ↔ seedReach g j := by
  have hstep : (nodeAt ((seedIdxs g).foldl markCritical g) j).is_startup_critical =
      ((nodeAt g j).is_startup_critical ||
       (seedIdxs g).any (fun s => decide (j = s ∨ j ∈ dfsVisit g (dfsFuel g) [s] []))) := by
    rw [(markFold (seedIdxs g) g).2 j hj]
  rw [hstep, hflags _ (nodeAt_mem g j hj), Bool.false_or]
  unfold seedReach
  constructor
  · intro h
    rw [List.any_eq_true] at h
    obtain ⟨sv, hsmem, hcond⟩ := h
    rw [decide_eq_true_eq] at hcond
    obtain ⟨hslt, hseed⟩ := (mem_seedIdxs g sv).mp hsmem
    refine ⟨sv, hslt, hseed, ?_⟩
    rcases hcond with rfl | hdfs
    · exact .refl _
    · rcases dfsVisit_sound g (dfsFuel g) [sv] [] j hdfs with h | ⟨s2, hs2, hr⟩
      · exact absurd h (List.not_mem_nil j)
      · rcases List.mem_singleton.mp hs2 with rfl
        exact hr
  · rintro ⟨sv, hslt, hseed, hr⟩
    rw [List.any_eq_true]
    refine ⟨sv, (mem_seedIdxs g sv).mpr ⟨hslt, hseed⟩, ?_⟩
    rw [decide_eq_true_eq]
    exact Or.inr (dfs_complete g hedges hslt hr)

/-- Claim C9 (confirmed): after `filter_startup_critical` on a freshly
built graph (no criticality flag set, edge endpoints in range), (1) every
remaining node is the marked copy of an original node reachable from a
seed (a `Map` asset or a node whose lowercased path contains `startup`),
(2) every seed-reachable original node is still present, so exactly the
non-reachable nodes were deleted, and (3) every remaining edge is an
original edge between seed-reachable nodes, with in-range renumbered
endpoints whose node values are the marked copies of its original
endpoints — edges incident to deleted nodes are gone. -/
theorem filter_startup_critical_closure (g : DepGraph)
    (hflags : ∀ nd ∈ g.nodes, nd.is_startup_critical = false)
    (hedges : ∀ e ∈ g.edges, e.src < g.nodes.length ∧ e.tgt < g.nodes.length) :
    (∀ nd ∈ (filterStartupCritical g).nodes, ∃ j, j < g.nodes.length ∧ seedReach g j ∧
        nd = { nodeAt g j with is_startup_critical := true }) ∧
    (∀ j, j < g.nodes.length → seedReach g j →
        ∃ j2, j2 < (filterStartupCritical g).nodes.length ∧
          nodeAt (filterStartupCritical g) j2 =
            { nodeAt g j with is_startup_critical := true }) ∧
    (∀ e ∈ (filterStartupCritical g).edges, ∃ e0 ∈ g.edges,
        e.data = e0.data ∧
        e.src < (filterStartupCritical g).nodes.length ∧
        e.tgt < (filterStartupCritical g).nodes.length ∧
        seedReach g e0.src ∧ seedReach g e0.tgt ∧
        nodeAt (filterStartupCritical g) e.src =
          { nodeAt g e0.src with is_startup_critical := true } ∧
        nodeAt (filterStartupCritical g) e.tgt =
          { nodeAt g e0.tgt with is_startup_critical := true }) := by
  obtain ⟨⟨hme, hmp, hml⟩, hmnode⟩ := markFold (seedIdxs g) g
  have hFn : (filterStartupCritical g).nodes = ((((((seedIdxs g).foldl markCritical g).nodes.enum.filter (fun p => ¬ p.2.is_startup_critical)).map (fun p => p.1)).reverse).foldl removeNodePG ((seedIdxs g).foldl markCritical g)).nodes := rfl
  have hFe : (filterStartupCritical g).edges = ((((((seedIdxs g).foldl markCritical g).nodes.enum.filter (fun p => ¬ p.2.is_startup_critical)).map (fun p => p.1)).reverse).foldl removeNodePG ((seedIdxs g).foldl markCritical g)).edges := rfl
  have hpw : List.Pairwise (fun a b => b < a) (((((seedIdxs g).foldl markCritical g).nodes.enum.filter (fun p => ¬ p.2.is_startup_critical)).map (fun p => p.1)).reverse) := by
    rw [List.pairwise_reverse]
    have h1 : List.Sublist (((seedIdxs g).foldl markCritical g).nodes.enum.filter (fun p => ¬ p.2.is_startup_critical))
        ((seedIdxs g).foldl markCritical g).nodes.enum := List.filter_sublist _
    have h2 := h1.map Prod.fst
    rw [List.enum_map_fst] at h2
    exact (List.pairwise_lt_range _).sublist h2
  have hvalid : ∀ t ∈ (((((seedIdxs g).foldl markCritical g).nodes.enum.filter (fun p => ¬ p.2.is_startup_critical)).map (fun p => p.1)).reverse), t < ((seedIdxs g).foldl markCritical g).nodes.length := by
    intro t htm
    rw [List.mem_reverse, List.mem_map] at htm
    obtain ⟨p, hp, hpeq⟩ := htm
    rw [List.mem_filter] at hp
    obtain ⟨hlt, _⟩ := mem_enum_spec hp.1
    rw [← hpeq]
    exact hlt
  have hcrit0 : ∀ j, j < ((seedIdxs g).foldl markCritical g).nodes.length →
      (nodeAt ((seedIdxs g).foldl markCritical g) j).is_startup_critical = true ∨ j ∈ (((((seedIdxs g).foldl markCritical g).nodes.enum.filter (fun p => ¬ p.2.is_startup_critical)).map (fun p => p.1)).reverse) := by
    intro j hj
    by_cases hc : (nodeAt ((seedIdxs g).foldl markCritical g) j).is_startup_critical = true
    · exact Or.inl hc
    · refine Or.inr ?_
      rw [List.mem_reverse, List.mem_map]
      refine ⟨(j, ((seedIdxs g).foldl markCritical g).nodes[j]), List.mem_filter.mpr ⟨enum_mem_of_lt hj, ?_⟩, rfl⟩
      rw [nodeAt_eq_getElem _ _ hj] at hc
      simpa using hc
  have hwfm : ∀ e ∈ ((seedIdxs g).foldl markCritical g).edges, e.src < ((seedIdxs g).foldl markCritical g).nodes.length ∧ e.tgt < ((seedIdxs g).foldl markCritical g).nodes.length := by
    intro e he
    rw [hme] at he
    rw [hml]
    exact hedges e he
  obtain ⟨hlenF, hsurv⟩ := removeFold_survive (((((seedIdxs g).foldl markCritical g).nodes.enum.filter (fun p => ¬ p.2.is_startup_critical)).map (fun p => p.1)).reverse) ((seedIdxs g).foldl markCritical g) hpw hvalid
  have hcritF := removeFold_critical (((((seedIdxs g).foldl markCritical g).nodes.enum.filter (fun p => ¬ p.2.is_startup_critical)).map (fun p => p.1)).reverse) ((seedIdxs g).foldl markCritical g) hpw hvalid hcrit0
  have hedgeF := removeFold_edges (((((seedIdxs g).foldl markCritical g).nodes.enum.filter (fun p => ¬ p.2.is_startup_critical)).map (fun p => p.1)).reverse) ((seedIdxs g).foldl markCritical g) hpw hvalid hwfm
  have hmemF := removeFold_mem (((((seedIdxs g).foldl markCritical g).nodes.enum.filter (fun p => ¬ p.2.is_startup_critical)).map (fun p => p.1)).reverse) ((seedIdxs g).foldl markCritical g)
  refine ⟨?_, ?_, ?_⟩
  · intro nd hnd
    rw [hFn] at hnd
    obtain ⟨j2, hj2, hj2eq⟩ := List.mem_iff_getElem.mp hnd
    have hmem : nd ∈ ((seedIdxs g).foldl markCritical g).nodes := hmemF nd hnd
    obtain ⟨j, hj, hjeq⟩ := List.mem_iff_getElem.mp hmem
    have hndj : nd = nodeAt ((seedIdxs g).foldl markCritical g) j := by
      rw [nodeAt_eq_getElem _ _ hj, hjeq]
    have hjg : j < g.nodes.length := by
      rw [← hml]
      exact hj
    have hndcrit : nd.is_startup_critical = true := by
      rw [show nd = nodeAt ((((((seedIdxs g).foldl markCritical g).nodes.enum.filter (fun p => ¬ p.2.is_startup_critical)).map (fun p => p.1)).reverse).foldl removeNodePG ((seedIdxs g).foldl markCritical g)) j2 from by rw [nodeAt_eq_getElem _ _ hj2, hj2eq]]
      exact hcritF j2 hj2
    have hflag : (nodeAt ((seedIdxs g).foldl markCritical g) j).is_startup_critical = true := by
      rw [← hndj]
      exact hndcrit
    have hsr := (marked_crit_iff g hflags hedges j hjg).mp hflag
    refine ⟨j, hjg, hsr, ?_⟩
    rw [hndj, hmnode j hjg]
    have hB : ((nodeAt g j).is_startup_critical ||
        (seedIdxs g).any (fun s => decide (j = s ∨ j ∈ dfsVisit g (dfsFuel g) [s] []))) = true := by
      have h3 := hndcrit
      rw [hndj, hmnode j hjg] at h3
      simpa using h3
    rw [hB]
  · intro j hjg hsr
    have hj1 : j < ((seedIdxs g).foldl markCritical g).nodes.length := by
      rw [hml]
      exact hjg
    have hflag : (nodeAt ((seedIdxs g).foldl markCritical g) j).is_startup_critical = true :=
      (marked_crit_iff g hflags hedges j hjg).mpr hsr
    have hjts : j ∉ (((((seedIdxs g).foldl markCritical g).nodes.enum.filter (fun p => ¬ p.2.is_startup_critical)).map (fun p => p.1)).reverse) := by
      intro hc
      rw [List.mem_reverse, List.mem_map] at hc
      obtain ⟨p, hp, hpeq⟩ := hc
      rw [List.mem_filter] at hp
      obtain ⟨hplt, hpval⟩ := mem_enum_spec hp.1
      have hnc : ¬ p.2.is_startup_critical = true := by simpa using hp.2
      apply hnc
      have hpval2 : p.2 = nodeAt ((seedIdxs g).foldl markCritical g) p.1 := by
        rw [nodeAt_eq_getElem _ _ hplt]
        exact hpval
      rw [hpval2, show p.1 = j from hpeq]
      exact hflag
    obtain ⟨j2, hj21, hj22⟩ := hsurv j hj1 hjts
    refine ⟨j2, by rw [hFn]; exact hj21, ?_⟩
    rw [show nodeAt (filterStartupCritical g) j2 = nodeAt ((((((seedIdxs g).foldl markCritical g).nodes.enum.filter (fun p => ¬ p.2.is_startup_critical)).map (fun p => p.1)).reverse).foldl removeNodePG ((seedIdxs g).foldl markCritical g)) j2 from by
      unfold nodeAt
      rw [hFn]]
    rw [hj22, hmnode j hjg]
    have hB : ((nodeAt g j).is_startup_critical ||
        (seedIdxs g).any (fun s => decide (j = s ∨ j ∈ dfsVisit g (dfsFuel g) [s] []))) = true := by
      have h3 := hflag
      rw [hmnode j hjg] at h3
      simpa using h3
    rw [hB]
  · intro e heF
    rw [hFe] at heF
    obtain ⟨e1, he1, hd, hs, htg, hns, hnt⟩ := hedgeF e heF
    have he1g : e1 ∈ g.edges := by
      rw [← hme]
      exact he1
    have hsw : e1.src < g.nodes.length := (hedges e1 he1g).1
    have htw : e1.tgt < g.nodes.length := (hedges e1 he1g).2
    have hcs : (nodeAt ((((((seedIdxs g).foldl markCritical g).nodes.enum.filter (fun p => ¬ p.2.is_startup_critical)).map (fun p => p.1)).reverse).foldl removeNodePG ((seedIdxs g).foldl markCritical g)) e.src).is_startup_critical = true := hcritF _ hs
    have hct : (nodeAt ((((((seedIdxs g).foldl markCritical g).nodes.enum.filter (fun p => ¬ p.2.is_startup_critical)).map (fun p => p.1)).reverse).foldl removeNodePG ((seedIdxs g).foldl markCritical g)) e.tgt).is_startup_critical = true := hcritF _ htg
    have hBs : ((nodeAt g e1.src).is_startup_critical ||
        (seedIdxs g).any (fun s => decide (e1.src = s ∨
          e1.src ∈ dfsVisit g (dfsFuel g) [s] []))) = true := by
      have h3 := hcs
      rw [hns, hmnode e1.src hsw] at h3
      simpa using h3
    have hBt : ((nodeAt g e1.tgt).is_startup_critical ||
        (seedIdxs g).any (fun s => decide (e1.tgt = s ∨
          e1.tgt ∈ dfsVisit g (dfsFuel g) [s] []))) = true := by
      have h3 := hct
      rw [hnt, hmnode e1.tgt htw] at h3
      simpa using h3
    have hfs : (nodeAt ((seedIdxs g).foldl markCritical g) e1.src).is_startup_critical = true := by
      rw [hmnode e1.src hsw]
      simpa using hBs
    have hft : (nodeAt ((seedIdxs g).foldl markCritical g) e1.tgt).is_startup_critical = true := by
      rw [hmnode e1.tgt htw]
      simpa using hBt
    refine ⟨e1, he1g, hd, by rw [hFn]; exact hs, by rw [hFn]; exact htg,
      (marked_crit_iff g hflags hedges e1.src hsw).mp hfs,
      (marked_crit_iff g hflags hedges e1.tgt htw).mp hft, ?_, ?_⟩
    · rw [show nodeAt (filterStartupCritical g) e.src = nodeAt ((((((seedIdxs g).foldl markCritical g).nodes.enum.filter (fun p => ¬ p.2.is_startup_critical)).map (fun p => p.1)).reverse).foldl removeNodePG ((seedIdxs g).foldl markCritical g)) e.src from by
        unfold nodeAt
        rw [hFn]]
      rw [hns, hmnode e1.src hsw, hBs]
    · rw [show nodeAt (filterStartupCritical g) e.tgt = nodeAt ((((((seedIdxs g).foldl markCritical g).nodes.enum.filter (fun p => ¬ p.2.is_startup_critical)).map (fun p => p.1)).reverse).foldl removeNodePG ((seedIdxs g).foldl markCritical g)) e.tgt from by
        unfold nodeAt
        rw [hFn]]
      rw [hnt, hmnode e1.tgt htw, hBt]

/-- Witness for claim C9 at a concrete graph: the single-map project;
its node is a seed, and part (1) of the claim holds for the filtered
graph, with the hypotheses checked by evaluation. -/
theorem filter_startup_critical_closure_witness :
    (∀ nd ∈ mapGraph.nodes, nd.is_startup_critical = false) ∧
    (∀ e ∈ mapGraph.edges, e.src < mapGraph.nodes.length ∧
      e.tgt < mapGraph.nodes.length) ∧
    ∀ nd ∈ (filterStartupCritical mapGraph).nodes, ∃ j, j < mapGraph.nodes.length ∧
      seedReach mapGraph j ∧ nd = { nodeAt mapGraph j with is_startup_critical := true } :=
  ⟨by decide, by decide,
    (filter_startup_critical_closure mapGraph (by decide) (by decide)).1⟩

end UEFast
